import Mathlib

/-! # Meeting-room scheduling API (`src/app.js`)

A shallow embedding of the Express application in `src/app.js`: the
authentication middleware, the room listing, and the three appointment
routes (create, list, cancel), followed by theorems about them.

Conventions of the embedding.

* The module-level arrays `users` and `rooms` are never reassigned by the
  program; they are carried in `Env`.  The array `appointments` is the only
  mutable state and is passed explicitly: every handler returns the response
  together with the array after the request.
* `uuidv4()` is an input of the step: the handler receives the identifier the
  call returns.
* A JavaScript `Date` is represented by its time value, `some ms` (an integer
  number of milliseconds since the epoch) or `none` for an Invalid Date.  The
  relational operators on two `Date`s compare the time values as numbers, and
  every comparison with `NaN` is false.
* The body fields `startTime` and `endTime` of a create request are given as
  the `Date` that `new Date(·)` builds from them.
* A stored time is the string `Date.prototype.toISOString` returns.  It is
  represented by the instant it denotes: `toISOString` is defined exactly on
  the valid dates, and `new Date` applied to its result gives back the same
  time value.
* `Buffer.from(·, 'base64').toString('utf8')` belongs to the runtime and is a
  parameter (`Env.base64Decode`).
* An exception that escapes a handler is the response `Response.uncaught`
  (Express answers it with status 500).
* Requests that never reach the gate (`/login`, `/api-docs`, a body that
  `bodyParser.json()` refuses) do not touch `appointments` and are left out of
  the step relation.  The login handler is embedded on its own; the runtime's
  base64 encoder `Buffer.from(·).toString('base64')` and the clock `Date.now()`
  are its parameters.
-/

namespace SprintAgil

/-! ## Data model -/

/-- An element of the `users` array. -/
structure User where
  id : String
  username : String
  password : String
  deriving DecidableEq, Repr

/-- An element of the `rooms` array. -/
structure Room where
  id : String
  name : String
  capacity : Nat
  deriving DecidableEq, Repr

/-- An element of the `appointments` array.  The two times are the stored
ISO strings, represented by the instants they denote (milliseconds). -/
structure Appointment where
  id : String
  roomId : String
  userId : String
  startTime : Int
  endTime : Int
  deriving DecidableEq, Repr

/-- The time value of a JavaScript `Date`; `none` is the Invalid Date. -/
abbrev JsDate := Option Int

/-- The operator `<` on two dates: false as soon as one of them is invalid. -/
def JsDate.lt : JsDate → JsDate → Bool
  | some a, some b => decide (a < b)
  | _, _ => false

/-- The operator `>` on two dates: false as soon as one of them is invalid. -/
def JsDate.gt : JsDate → JsDate → Bool
  | some a, some b => decide (a > b)
  | _, _ => false

/-- The operator `>=` on two dates: false as soon as one of them is invalid. -/
def JsDate.ge : JsDate → JsDate → Bool
  | some a, some b => decide (a ≥ b)
  | _, _ => false

/-- The call `new Date(s)` on a stored ISO string `s`. -/
def newDate (iso : Int) : JsDate := some iso

/-- The method `toISOString`; `none` stands for the `RangeError` it throws on
an Invalid Date. -/
def toISOString : JsDate → Option Int
  | some t => some t
  | none => none

/-- The fields read from `req.body` by `POST /appointments`; the two times
are the dates `new Date(startTime)` and `new Date(endTime)`. -/
structure CreateBody where
  roomId : String
  startTime : JsDate
  endTime : JsDate
  deriving DecidableEq, Repr

/-- What a handler sends back. -/
inductive Response where
  /-- The call `res.status(status).json({ message })`. -/
  | message (status : Nat) (message : String)
  /-- The call `res.json(rooms)`. -/
  | rooms (body : List Room)
  /-- The call `res.status(201).json(newAppointment)`. -/
  | created (body : Appointment)
  /-- The call `res.json(appointments)`. -/
  | appointments (body : List Appointment)
  /-- The call `res.status(204).send()`. -/
  | noContent
  /-- An exception left the handler. -/
  | uncaught
  /-- The call `res.json({ token })`. -/
  | token (token : String)
  deriving DecidableEq, Repr

/-- The HTTP status of a response: the one given to `res.status`, 200 when the
handler sets none, 500 for an exception that reaches the default error handler
of Express. -/
def Response.status : Response → Nat
  | .message status _ => status
  | .rooms _ => 200
  | .created _ => 201
  | .appointments _ => 200
  | .noContent => 204
  | .uncaught => 500
  | .token _ => 200

/-- The response of the gate when there is no authorization header. -/
def tokenMissing : Response := .message 401 "Token de autenticação não fornecido."

/-- The response of the gate when the token names no user. -/
def tokenInvalid : Response := .message 403 "Token de autenticação inválido."

/-- The response of `POST /login` when no user has the credentials. -/
def invalidCredentials : Response := .message 401 "Credenciais inválidas."

/-- The error kind `RoomNotFound`. -/
def roomNotFound : Response := .message 400 "Sala não encontrada."

/-- The error kind `InvalidRange`. -/
def invalidRange : Response :=
  .message 400 "A data de início deve ser anterior à data de término."

/-- The error kind `Conflict`. -/
def conflictResponse : Response :=
  .message 400 "Conflito de agendamento: a sala já está ocupada neste horário."

/-- The error kind `NotFound`. -/
def notFound : Response := .message 404 "Agendamento não encontrado."

/-- The error kind `Forbidden`. -/
def forbidden : Response :=
  .message 403 "Você não tem permissão para cancelar este agendamento."

/-- The immutable part of the process: the two seeded arrays and the
runtime's base64 decoder. -/
structure Env where
  users : List User
  rooms : List Room
  base64Decode : String → String

/-! ## Array and string helpers -/

/-- The method `Array.prototype.findIndex`; `none` stands for `-1`. -/
def findIndex {α : Type} (p : α → Bool) : List α → Option Nat
  | [] => none
  | x :: xs => if p x then some 0 else (findIndex p xs).map (· + 1)

/-- The method `String.prototype.split` with a one-character separator. -/
def split (sep : Char) : List Char → List (List Char)
  | [] => [[]]
  | c :: cs =>
    if c = sep then [] :: split sep cs
    else
      match split sep cs with
      | [] => [[c]]
      | w :: ws => (c :: w) :: ws

/-! ## The authentication middleware -/

/-- The middleware `authenticate`: the user put in `req.user`, or the response
that ends the request. -/
def authenticate (env : Env) (authHeader : Option String) : Except Response User :=
  match authHeader with
  | none => .error tokenMissing
  | some header =>
    if header = "" then .error tokenMissing
    else
      match (split ' ' header.data)[1]? with
      | none => .error .uncaught
      | some token =>
        let decodedToken := env.base64Decode (String.mk token)
        let userIdFromToken := String.mk ((split ':' decodedToken.data).headD [])
        match env.users.find? (fun u => u.id == userIdFromToken) with
        | none => .error tokenInvalid
        | some user => .ok user

/-- The user id that the gate reads in a token: the decoded token up to its
first colon. -/
def decodedUserId (env : Env) (token : List Char) : String :=
  String.mk ((split ':' (env.base64Decode (String.mk token)).data).headD [])

/-! ## The login route -/

/-- The token built by `POST /login`: the template string made of the user id, a
colon and `Date.now()` in decimal, passed to the runtime's base64 encoder
`Buffer.from(·).toString('base64')`, which is a parameter. -/
def issueToken (base64Encode : String → String) (userId : String) (now : Nat) : String :=
  base64Encode (userId ++ ":" ++ toString now)

/-- The handler of `POST /login`, registered before the gate; `now` is the
result of the call `Date.now()`. -/
def login (users : List User) (base64Encode : String → String) (now : Nat)
    (username password : String) : Response :=
  match users.find? (fun u => u.username == username && u.password == password) with
  | some user => .token (issueToken base64Encode user.id now)
  | none => invalidCredentials

/-! ## The routes behind the gate -/

/-- The handler of `GET /rooms`. -/
def getRooms (rooms : List Room) (appointments : List Appointment) :
    Response × List Appointment :=
  (.rooms rooms, appointments)

/-- The overlap test of the conflict scan, on one stored appointment. -/
def overlaps (roomId : String) (newStartTime newEndTime : JsDate) (appt : Appointment) : Bool :=
  appt.roomId == roomId &&
    (JsDate.lt newStartTime (newDate appt.endTime) &&
      JsDate.gt newEndTime (newDate appt.startTime))

/-- The handler of `POST /appointments`, for the user in `req.user`; `uuid` is
the result of the call `uuidv4()`. -/
def postAppointments (rooms : List Room) (appointments : List Appointment) (user : User)
    (body : CreateBody) (uuid : String) : Response × List Appointment :=
  let roomExists := rooms.any (fun room => room.id == body.roomId)
  if !roomExists then (roomNotFound, appointments)
  else
    let newStartTime := body.startTime
    let newEndTime := body.endTime
    if JsDate.ge newStartTime newEndTime then (invalidRange, appointments)
    else
      let conflict := appointments.any (overlaps body.roomId newStartTime newEndTime)
      if conflict then (conflictResponse, appointments)
      else
        match toISOString newStartTime, toISOString newEndTime with
        | some startTime, some endTime =>
          let newAppointment : Appointment :=
            { id := uuid, roomId := body.roomId, userId := user.id,
              startTime := startTime, endTime := endTime }
          (.created newAppointment, appointments ++ [newAppointment])
        | _, _ => (.uncaught, appointments)

/-- The handler of `GET /appointments`. -/
def getAppointments (appointments : List Appointment) : Response × List Appointment :=
  (.appointments appointments, appointments)

/-- The handler of `DELETE /appointments/:id`, for the user in `req.user`. -/
def deleteAppointment (appointments : List Appointment) (user : User) (id : String) :
    Response × List Appointment :=
  match findIndex (fun appt => appt.id == id) appointments with
  | none => (notFound, appointments)
  | some appointmentIndex =>
    match appointments[appointmentIndex]? with
    | none => (.uncaught, appointments)
    | some appt =>
      if appt.userId != user.id then (forbidden, appointments)
      else (.noContent, appointments.eraseIdx appointmentIndex)

/-- A request to one of the routes registered after `app.use(authenticate)`. -/
inductive Request where
  | getRooms
  | postAppointments (body : CreateBody)
  | getAppointments
  | deleteAppointment (id : String)
  deriving DecidableEq, Repr

/-- One request served by the application: the gate, then the route. -/
def handle (env : Env) (appointments : List Appointment) (authHeader : Option String)
    (req : Request) (uuid : String) : Response × List Appointment :=
  match authenticate env authHeader with
  | .error res => (res, appointments)
  | .ok user =>
    match req with
    | .getRooms => getRooms env.rooms appointments
    | .postAppointments body => postAppointments env.rooms appointments user body uuid
    | .getAppointments => getAppointments appointments
    | .deleteAppointment id => deleteAppointment appointments user id

/-! ## Reachable stores -/

/-- The stores the process can be in: `appointments` starts empty and changes
only by serving requests.  Nothing is assumed about the identifiers that
`uuidv4()` returns. -/
inductive Reachable (env : Env) : List Appointment → Prop where
  | init : Reachable env []
  | step (appointments : List Appointment) (authHeader : Option String) (req : Request)
      (uuid : String) :
      Reachable env appointments →
      Reachable env (handle env appointments authHeader req uuid).2

/-- The stores the process can be in when every identifier that `uuidv4()`
returns differs from the identifiers in the store at that moment. -/
inductive ReachableFresh (env : Env) : List Appointment → Prop where
  | init : ReachableFresh env []
  | step (appointments : List Appointment) (authHeader : Option String) (req : Request)
      (uuid : String) :
      ReachableFresh env appointments →
      (∀ a ∈ appointments, a.id ≠ uuid) →
      ReachableFresh env (handle env appointments authHeader req uuid).2

/-- The relation `conflict(a, b)` of the data model. -/
def conflict (a b : Appointment) : Prop :=
  a.startTime < b.endTime ∧ a.endTime > b.startTime

/-- The identifiers of the stored appointments are pairwise distinct. -/
def idsDistinct (appointments : List Appointment) : Prop :=
  (appointments.map (·.id)).Nodup

/-- No two entries at different positions of the store are on the same room
and in conflict. -/
def NoConflict (appointments : List Appointment) : Prop :=
  appointments.Pairwise (fun a b => a.roomId = b.roomId → ¬ conflict a b)

/-! ## A concrete instance

A catalog of one room and two users, with the identity for the decoder, so
that the header `Bearer u1:0` names the first user. -/

/-- A room of the example catalog. -/
def exampleRoom : Room := ⟨"r1", "Sala Alpha", 10⟩

/-- The first user of the example. -/
def exampleUser1 : User := ⟨"u1", "funcionario1", "password1"⟩

/-- The second user of the example. -/
def exampleUser2 : User := ⟨"u2", "julio.lima", "123456"⟩

/-- The example environment. -/
def exampleEnv : Env := ⟨[exampleUser1, exampleUser2], [exampleRoom], fun s => s⟩

/-- The encoder of the example codec, on characters: a space becomes `bs`, any
other character `c` becomes `a` followed by `c`. -/
def exampleEncodeChars : List Char → List Char
  | [] => []
  | c :: cs =>
    if c = ' ' then 'b' :: 's' :: exampleEncodeChars cs
    else 'a' :: c :: exampleEncodeChars cs

/-- The decoder of the example codec, on characters: it reads two characters at
a time, `a` followed by `c` gives `c`, any other pair gives a space. -/
def exampleDecodeChars : List Char → List Char
  | x :: y :: cs =>
    if x = 'a' then y :: exampleDecodeChars cs else ' ' :: exampleDecodeChars cs
  | _ => []

/-- The encoder of the example codec.  It has the two properties of the
runtime's base64 encoder that the token theorems rely on: it can be decoded
back, and its output holds no space. -/
def exampleEncode (s : String) : String := String.mk (exampleEncodeChars s.data)

/-- The decoder of the example codec. -/
def exampleDecode (s : String) : String := String.mk (exampleDecodeChars s.data)

/-- The example environment with the decoder of the example codec; the token of
the second user at clock value 0 is `aua2a:a0`. -/
def codecEnv : Env := ⟨[exampleUser1, exampleUser2], [exampleRoom], exampleDecode⟩

/-- The booking of the example room by the first user, from instant 540 to instant 600. -/
def exampleAppt1 : Appointment := ⟨"a1", "r1", "u1", 540, 600⟩

/-- The booking of the example room by the second user, from instant 600 to instant 660. -/
def exampleAppt2 : Appointment := ⟨"a2", "r1", "u2", 600, 660⟩

/-! ## Lemmas on the helpers -/

theorem conflict_symm {a b : Appointment} (h : conflict a b) : conflict b a := by
  unfold conflict at *
  omega

theorem overlaps_iff (roomId : String) (s e : Int) (appt : Appointment) :
    overlaps roomId (some s) (some e) appt = true ↔
      appt.roomId = roomId ∧ s < appt.endTime ∧ e > appt.startTime := by
  simp [overlaps, JsDate.lt, JsDate.gt, newDate]

/-- Every way `POST /appointments` can end. -/
theorem postAppointments_cases (rooms : List Room) (s : List Appointment) (user : User)
    (body : CreateBody) (uuid : String) :
    (rooms.any (fun room => room.id == body.roomId) = false ∧
        postAppointments rooms s user body uuid = (roomNotFound, s)) ∨
    (rooms.any (fun room => room.id == body.roomId) = true ∧
        JsDate.ge body.startTime body.endTime = true ∧
        postAppointments rooms s user body uuid = (invalidRange, s)) ∨
    (rooms.any (fun room => room.id == body.roomId) = true ∧
        JsDate.ge body.startTime body.endTime = false ∧
        s.any (overlaps body.roomId body.startTime body.endTime) = true ∧
        postAppointments rooms s user body uuid = (conflictResponse, s)) ∨
    (rooms.any (fun room => room.id == body.roomId) = true ∧
        (body.startTime = none ∨ body.endTime = none) ∧
        postAppointments rooms s user body uuid = (.uncaught, s)) ∨
    (∃ st en, rooms.any (fun room => room.id == body.roomId) = true ∧
        body.startTime = some st ∧ body.endTime = some en ∧ st < en ∧
        s.any (overlaps body.roomId (some st) (some en)) = false ∧
        postAppointments rooms s user body uuid =
          (.created ⟨uuid, body.roomId, user.id, st, en⟩,
            s ++ [⟨uuid, body.roomId, user.id, st, en⟩])) := by
  obtain ⟨roomId, startTime, endTime⟩ := body
  unfold postAppointments
  by_cases hr : rooms.any (fun room => room.id == roomId) = true
  · by_cases hg : JsDate.ge startTime endTime = true
    · simp [hr, hg]
    · by_cases hc : s.any (overlaps roomId startTime endTime) = true
      · simp [hr, hg, hc]
      · cases startTime with
        | none => simp [hr, hg, hc, toISOString]
        | some st =>
          cases endTime with
          | none => simp [hr, hg, hc, toISOString]
          | some en =>
            have hlt : st < en := by
              simp [JsDate.ge] at hg
              exact hg
            simp [hr, hg, hc, toISOString, hlt]
            simpa using hc
  · simp [hr]


theorem findIndex_eq_none {α : Type} (p : α → Bool) (l : List α) :
    findIndex p l = none ↔ ∀ x ∈ l, p x = false := by
  induction l with
  | nil => simp [findIndex]
  | cons x xs ih =>
    by_cases hx : p x = true
    · simp [findIndex, hx]
    · simp [findIndex, hx, ih]

theorem findIndex_eq_some {α : Type} (p : α → Bool) (l : List α) (i : Nat)
    (h : findIndex p l = some i) :
    ∃ x, l[i]? = some x ∧ p x = true ∧ ∀ j y, j < i → l[j]? = some y → p y = false := by
  induction l generalizing i with
  | nil => simp [findIndex] at h
  | cons x xs ih =>
    by_cases hx : p x = true
    · simp [findIndex, hx] at h
      subst h
      exact ⟨x, by simp, hx, by intro j y hj; omega⟩
    · simp [findIndex, hx] at h
      obtain ⟨k, hk, rfl⟩ := h
      obtain ⟨y, hy, hpy, hbefore⟩ := ih k hk
      refine ⟨y, by simpa using hy, hpy, ?_⟩
      intro j z hj hz
      cases j with
      | zero =>
        simp at hz
        subst hz
        simpa using hx
      | succ j =>
        simp at hz
        exact hbefore j z (by omega) hz

/-- Every way `DELETE /appointments/:id` can end. -/
theorem deleteAppointment_cases (s : List Appointment) (user : User) (id : String) :
    ((∀ a ∈ s, a.id ≠ id) ∧ deleteAppointment s user id = (notFound, s)) ∨
    (∃ i a, findIndex (fun appt => appt.id == id) s = some i ∧ s[i]? = some a ∧ a.id = id ∧
        a.userId ≠ user.id ∧ deleteAppointment s user id = (forbidden, s)) ∨
    (∃ i a, findIndex (fun appt => appt.id == id) s = some i ∧ s[i]? = some a ∧ a.id = id ∧
        a.userId = user.id ∧ deleteAppointment s user id = (.noContent, s.eraseIdx i)) := by
  unfold deleteAppointment
  cases hf : findIndex (fun appt => appt.id == id) s with
  | none =>
    left
    rw [findIndex_eq_none] at hf
    exact ⟨by simpa using hf, rfl⟩
  | some i =>
    right
    obtain ⟨a, ha, hpa, -⟩ := findIndex_eq_some _ _ _ hf
    have hid : a.id = id := by simpa using hpa
    by_cases hu : a.userId = user.id
    · right
      exact ⟨i, a, rfl, ha, hid, hu, by simp [ha, hu]⟩
    · left
      exact ⟨i, a, rfl, ha, hid, hu, by simp [ha, hu]⟩

/-- The store after a request: unchanged, one appointment appended by a
create that passed the three checks, or one entry removed by a cancel. -/
theorem handle_store (env : Env) (s : List Appointment) (authHeader : Option String)
    (req : Request) (uuid : String) :
    (handle env s authHeader req uuid).2 = s ∨
    (∃ user body st en, authenticate env authHeader = .ok user ∧
        req = .postAppointments body ∧
        env.rooms.any (fun room => room.id == body.roomId) = true ∧ st < en ∧
        s.any (overlaps body.roomId (some st) (some en)) = false ∧
        (handle env s authHeader req uuid).2 =
          s ++ [⟨uuid, body.roomId, user.id, st, en⟩]) ∨
    (∃ i, (handle env s authHeader req uuid).2 = s.eraseIdx i) := by
  unfold handle
  cases ha : authenticate env authHeader with
  | error res => simp
  | ok user =>
    cases req with
    | getRooms => simp [getRooms]
    | getAppointments => simp [getAppointments]
    | postAppointments body =>
      rcases postAppointments_cases env.rooms s user body uuid with
        h | h | h | h | ⟨st, en, hr, -, -, hlt, hc, h⟩
      · simp [h.2]
      · simp [h.2.2]
      · simp [h.2.2.2]
      · simp [h.2.2]
      · right; left
        exact ⟨user, body, st, en, rfl, rfl, hr, hlt, hc, by simp [h]⟩
    | deleteAppointment id =>
      rcases deleteAppointment_cases s user id with h | ⟨i, a, -, -, -, -, h⟩ | ⟨i, a, -, -, -, -, h⟩
      · simp [h.2]
      · simp [h]
      · right; right
        exact ⟨i, by simp [h]⟩

theorem noConflict_append (s : List Appointment) (uuid roomId userId : String) (st en : Int)
    (hs : NoConflict s) (hc : s.any (overlaps roomId (some st) (some en)) = false) :
    NoConflict (s ++ [⟨uuid, roomId, userId, st, en⟩]) := by
  unfold NoConflict at *
  rw [List.pairwise_append]
  refine ⟨hs, List.pairwise_singleton _ _, ?_⟩
  intro a ha b hb hroom hconf
  simp at hb
  subst hb
  have hov : overlaps roomId (some st) (some en) a = true := by
    rw [overlaps_iff]
    unfold conflict at hconf
    simp at hconf hroom
    exact ⟨hroom, hconf.2, hconf.1⟩
  have := List.any_eq_false.mp hc a ha
  simp [hov] at this

theorem noConflict_of_reachable (env : Env) (s : List Appointment) (h : Reachable env s) :
    NoConflict s := by
  induction h with
  | init => exact List.Pairwise.nil
  | step s authHeader req uuid _ ih =>
    rcases handle_store env s authHeader req uuid with h | ⟨user, body, st, en, -, -, -, -, hc, h⟩ | ⟨i, h⟩
    · rw [h]; exact ih
    · rw [h]; exact noConflict_append s uuid body.roomId user.id st en ih hc
    · rw [h]; exact List.Pairwise.sublist (List.eraseIdx_sublist s i) ih

theorem noConflict_getElem (s : List Appointment) (h : NoConflict s) (i j : Nat)
    (a b : Appointment) (hij : i ≠ j) (ha : s[i]? = some a) (hb : s[j]? = some b)
    (hroom : a.roomId = b.roomId) : ¬ conflict a b := by
  unfold NoConflict at h
  rw [List.pairwise_iff_getElem] at h
  obtain ⟨hi, rfl⟩ := List.getElem?_eq_some.mp ha
  obtain ⟨hj, rfl⟩ := List.getElem?_eq_some.mp hb
  rcases Nat.lt_or_gt_of_ne hij with hlt | hgt
  · exact h i j hi hj hlt hroom
  · intro hc
    exact h j i hj hi hgt hroom.symm (conflict_symm hc)


theorem any_room_iff (rooms : List Room) (roomId : String) :
    rooms.any (fun room => room.id == roomId) = true ↔ ∃ room ∈ rooms, room.id = roomId := by
  simp

theorem any_overlaps_eq_false_iff (s : List Appointment) (roomId : String) (st en : Int) :
    s.any (overlaps roomId (some st) (some en)) = false ↔
      ¬ ∃ appt ∈ s, appt.roomId = roomId ∧ st < appt.endTime ∧ en > appt.startTime := by
  rw [List.any_eq_false]
  constructor
  · rintro h ⟨appt, hmem, hov⟩
    exact h appt hmem ((overlaps_iff roomId st en appt).mpr hov)
  · intro h appt hmem hov
    exact h ⟨appt, hmem, (overlaps_iff roomId st en appt).mp hov⟩

/-- A create on a catalog room with a valid window that meets no stored
appointment of that room stores the appointment. -/
theorem postAppointments_created (rooms : List Room) (s : List Appointment) (user : User)
    (roomId : String) (st en : Int) (uuid : String)
    (hroom : ∃ room ∈ rooms, room.id = roomId) (hlt : st < en)
    (hfree : ¬ ∃ appt ∈ s, appt.roomId = roomId ∧ st < appt.endTime ∧ en > appt.startTime) :
    postAppointments rooms s user ⟨roomId, some st, some en⟩ uuid =
      (.created ⟨uuid, roomId, user.id, st, en⟩, s ++ [⟨uuid, roomId, user.id, st, en⟩]) := by
  have hr := (any_room_iff rooms roomId).mpr hroom
  have hc := (any_overlaps_eq_false_iff s roomId st en).mpr hfree
  have hg : JsDate.ge (some st) (some en) = false := by
    simp [JsDate.ge, hlt]
  simp only [postAppointments, hr, hg, hc, toISOString]
  simp

/-- A create on a catalog room with a valid window that meets a stored
appointment of that room is refused as a conflict. -/
theorem postAppointments_conflict (rooms : List Room) (s : List Appointment) (user : User)
    (roomId : String) (st en : Int) (uuid : String)
    (hroom : ∃ room ∈ rooms, room.id = roomId) (hlt : st < en)
    (hbusy : ∃ appt ∈ s, appt.roomId = roomId ∧ st < appt.endTime ∧ en > appt.startTime) :
    postAppointments rooms s user ⟨roomId, some st, some en⟩ uuid = (conflictResponse, s) := by
  have hr := (any_room_iff rooms roomId).mpr hroom
  have hc : s.any (overlaps roomId (some st) (some en)) = true := by
    by_contra hne
    have hfalse : s.any (overlaps roomId (some st) (some en)) = false := by
      simpa using hne
    exact (any_overlaps_eq_false_iff s roomId st en).mp hfalse hbusy
  have hg : JsDate.ge (some st) (some en) = false := by
    simp [JsDate.ge, hlt]
  simp only [postAppointments, hr, hg, hc]
  simp

/-- Two creates in a row on a catalog room free in the store, with valid
windows that do not overlap, both store their appointment. -/
theorem two_creates (rooms : List Room) (s : List Appointment) (u1 u2 : User) (r : String)
    (s1 e1 s2 e2 : Int) (id1 id2 : String)
    (hroom : ∃ room ∈ rooms, room.id = r) (hfree : ∀ a ∈ s, a.roomId ≠ r)
    (h1 : s1 < e1) (h2 : s2 < e2) (hdisj : e1 ≤ s2 ∨ e2 ≤ s1) :
    postAppointments rooms s u1 ⟨r, some s1, some e1⟩ id1 =
        (.created ⟨id1, r, u1.id, s1, e1⟩, s ++ [⟨id1, r, u1.id, s1, e1⟩]) ∧
      postAppointments rooms (s ++ [⟨id1, r, u1.id, s1, e1⟩]) u2 ⟨r, some s2, some e2⟩ id2 =
        (.created ⟨id2, r, u2.id, s2, e2⟩,
          s ++ [⟨id1, r, u1.id, s1, e1⟩] ++ [⟨id2, r, u2.id, s2, e2⟩]) := by
  constructor
  · apply postAppointments_created rooms s u1 r s1 e1 id1 hroom h1
    rintro ⟨appt, hmem, hr, -⟩
    exact hfree appt hmem hr
  · apply postAppointments_created rooms _ u2 r s2 e2 id2 hroom h2
    rintro ⟨appt, hmem, hr, hlo, hhi⟩
    rcases List.mem_append.mp hmem with hm | hm
    · exact hfree appt hm hr
    · simp at hm
      subst hm
      simp at hlo hhi
      omega

theorem reachable_example :
    Reachable exampleEnv [exampleAppt1, exampleAppt2] :=
  Reachable.step [exampleAppt1] (some "Bearer u2:0")
    (.postAppointments ⟨"r1", some 600, some 660⟩) "a2"
    (Reachable.step [] (some "Bearer u1:0")
      (.postAppointments ⟨"r1", some 540, some 600⟩) "a1" Reachable.init)

/-- A create on a room that is not in the catalog is refused, whatever the
two dates are. -/
theorem postAppointments_unknown_room (rooms : List Room) (s : List Appointment) (user : User)
    (body : CreateBody) (uuid : String) (hroom : ∀ room ∈ rooms, room.id ≠ body.roomId) :
    postAppointments rooms s user body uuid = (roomNotFound, s) := by
  have hr : rooms.any (fun room => room.id == body.roomId) = false := by
    rw [List.any_eq_false]
    intro room hmem
    simpa using hroom room hmem
  simp only [postAppointments, hr]
  simp

theorem rooms_known_of_reachable (env : Env) (s : List Appointment) (h : Reachable env s) :
    ∀ a ∈ s, ∃ room ∈ env.rooms, room.id = a.roomId := by
  induction h with
  | init => simp
  | step s authHeader req uuid _ ih =>
    rcases handle_store env s authHeader req uuid with
      h | ⟨user, body, st, en, -, -, hr, -, -, h⟩ | ⟨i, h⟩
    · rw [h]; exact ih
    · rw [h]
      intro a ha
      rcases List.mem_append.mp ha with hm | hm
      · exact ih a hm
      · simp at hm
        subst hm
        exact (any_room_iff env.rooms body.roomId).mp hr
    · rw [h]
      intro a ha
      exact ih a ((List.eraseIdx_sublist s i).subset ha)

/-- A create that does not answer 201 leaves the array as it was. -/
theorem postAppointments_store_of_not_created (rooms : List Room) (s : List Appointment)
    (user : User) (body : CreateBody) (uuid : String)
    (h : ∀ a, (postAppointments rooms s user body uuid).1 ≠ .created a) :
    (postAppointments rooms s user body uuid).2 = s := by
  rcases postAppointments_cases rooms s user body uuid with
    hc | hc | hc | hc | ⟨st, en, -, -, -, -, -, hc⟩
  · rw [hc.2]
  · rw [hc.2.2]
  · rw [hc.2.2.2]
  · rw [hc.2.2]
  · exact absurd (by rw [hc]) (h ⟨uuid, body.roomId, user.id, st, en⟩)

theorem reachableFresh_example :
    ReachableFresh exampleEnv [exampleAppt1, exampleAppt2] :=
  ReachableFresh.step [exampleAppt1] (some "Bearer u2:0")
    (.postAppointments ⟨"r1", some 600, some 660⟩) "a2"
    (ReachableFresh.step [] (some "Bearer u1:0")
      (.postAppointments ⟨"r1", some 540, some 600⟩) "a1" ReachableFresh.init (by simp))
    (by decide)

theorem idsDistinct_iff_pairwise (s : List Appointment) :
    idsDistinct s ↔ s.Pairwise (fun a b => a.id ≠ b.id) := by
  unfold idsDistinct List.Nodup
  rw [List.pairwise_map]

/-- In a store with distinct identifiers, two positions holding the same
identifier are the same position. -/
theorem idsDistinct_index (s : List Appointment) (h : idsDistinct s) (i j : Nat)
    (a b : Appointment) (ha : s[i]? = some a) (hb : s[j]? = some b) (hid : a.id = b.id) :
    i = j := by
  rw [idsDistinct_iff_pairwise, List.pairwise_iff_getElem] at h
  obtain ⟨hi, rfl⟩ := List.getElem?_eq_some.mp ha
  obtain ⟨hj, rfl⟩ := List.getElem?_eq_some.mp hb
  by_contra hne
  rcases Nat.lt_or_gt_of_ne hne with hlt | hgt
  · exact h i j hi hj hlt hid
  · exact h j i hj hi hgt hid.symm

theorem idsDistinct_of_reachableFresh (env : Env) (s : List Appointment)
    (h : ReachableFresh env s) : idsDistinct s := by
  induction h with
  | init => simp [idsDistinct]
  | step s authHeader req uuid _ hfresh ih =>
    rcases handle_store env s authHeader req uuid with
      h | ⟨user, body, st, en, -, -, -, -, -, h⟩ | ⟨i, h⟩
    · rw [h]; exact ih
    · rw [h, idsDistinct_iff_pairwise, List.pairwise_append]
      refine ⟨(idsDistinct_iff_pairwise s).mp ih, List.pairwise_singleton _ _, ?_⟩
      intro a ha b hb
      simp at hb
      subst hb
      exact hfresh a ha
    · rw [h, idsDistinct_iff_pairwise]
      exact List.Pairwise.sublist (List.eraseIdx_sublist s i) ((idsDistinct_iff_pairwise s).mp ih)

/-- The cancel of a stored appointment by somebody else than its owner, in a
store with distinct identifiers. -/
theorem deleteAppointment_forbidden (s : List Appointment) (a : Appointment) (u : User)
    (hd : idsDistinct s) (ha : a ∈ s) (hu : u.id ≠ a.userId) :
    deleteAppointment s u a.id = (forbidden, s) := by
  obtain ⟨k, hk⟩ := List.getElem?_of_mem ha
  rcases deleteAppointment_cases s u a.id with h | ⟨i, b, -, -, -, -, h⟩ | ⟨i, b, -, hb, hid, hown, -⟩
  · exact absurd rfl (h.1 a ha)
  · exact h
  · have hik := idsDistinct_index s hd i k b a hb hk hid
    subst hik
    rw [hk] at hb
    simp only [Option.some.injEq] at hb
    subst hb
    exact absurd hown.symm hu

/-- The cancel of a stored appointment by its owner, in a store with distinct
identifiers: it succeeds and no entry with that identifier is left. -/
theorem deleteAppointment_owner (s : List Appointment) (a : Appointment) (owner : User)
    (hd : idsDistinct s) (ha : a ∈ s) (ho : owner.id = a.userId) :
    (deleteAppointment s owner a.id).1 = .noContent ∧
      ∀ b ∈ (deleteAppointment s owner a.id).2, b.id ≠ a.id := by
  obtain ⟨k, hk⟩ := List.getElem?_of_mem ha
  rcases deleteAppointment_cases s owner a.id with
    h | ⟨i, b, -, hb, hid, hown, -⟩ | ⟨i, b, -, hb, hid, -, h⟩
  · exact absurd rfl (h.1 a ha)
  · have hik := idsDistinct_index s hd i k b a hb hk hid
    subst hik
    rw [hk] at hb
    simp only [Option.some.injEq] at hb
    subst hb
    exact absurd ho.symm hown
  · rw [h]
    refine ⟨rfl, ?_⟩
    intro c hc hcid
    obtain ⟨j, hji, hj⟩ := List.mem_eraseIdx_iff_getElem?.mp hc
    exact hji (idsDistinct_index s hd j i c b hj hb (hcid.trans hid.symm))

/-- The cancel answers NotFound exactly when the identifier is not in the store. -/
theorem deleteAppointment_notFound_iff (s : List Appointment) (u : User) (id : String) :
    (deleteAppointment s u id).1 = notFound ↔ ∀ b ∈ s, b.id ≠ id := by
  rcases deleteAppointment_cases s u id with h | ⟨i, b, -, hb, hid, -, h⟩ | ⟨i, b, -, hb, hid, -, h⟩
  · rw [h.2]
    simpa using h.1
  · rw [h]
    have hmem : b ∈ s := List.getElem?_mem hb
    constructor
    · intro hres
      simp [forbidden, notFound] at hres
    · intro hall
      exact absurd hid (hall b hmem)
  · rw [h]
    have hmem : b ∈ s := List.getElem?_mem hb
    constructor
    · intro hres
      simp [notFound] at hres
    · intro hall
      exact absurd hid (hall b hmem)

theorem reachable_of_reachableFresh (env : Env) (s : List Appointment)
    (h : ReachableFresh env s) : Reachable env s := by
  induction h with
  | init => exact Reachable.init
  | step s authHeader req uuid _ _ ih => exact Reachable.step s authHeader req uuid ih

theorem valid_range_of_reachable (env : Env) (s : List Appointment) (h : Reachable env s) :
    ∀ a ∈ s, a.startTime < a.endTime := by
  induction h with
  | init => simp
  | step s authHeader req uuid _ ih =>
    rcases handle_store env s authHeader req uuid with
      h | ⟨user, body, st, en, -, -, -, hlt, -, h⟩ | ⟨i, h⟩
    · rw [h]; exact ih
    · rw [h]
      intro a ha
      rcases List.mem_append.mp ha with hm | hm
      · exact ih a hm
      · simp at hm
        subst hm
        exact hlt
    · rw [h]
      intro a ha
      exact ih a ((List.eraseIdx_sublist s i).subset ha)

/-- Removing the entry at a position that holds `a` cuts the list around `a`. -/
theorem eraseIdx_cut (s : List Appointment) (i : Nat) (a : Appointment)
    (h : s[i]? = some a) :
    ∃ l₁ l₂, s = l₁ ++ a :: l₂ ∧ s.eraseIdx i = l₁ ++ l₂ := by
  obtain ⟨hi, rfl⟩ := List.getElem?_eq_some.mp h
  refine ⟨s.take i, s.drop (i + 1), ?_, List.eraseIdx_eq_take_drop_succ s i⟩
  rw [← List.drop_eq_getElem_cons hi, List.take_append_drop]

/-- The cancel of a stored appointment by its owner, in a store with distinct
identifiers, removes the entry at a position that holds this appointment. -/
theorem deleteAppointment_owner_eraseIdx (s : List Appointment) (a : Appointment)
    (owner : User) (hd : idsDistinct s) (ha : a ∈ s) (ho : owner.id = a.userId) :
    ∃ i, s[i]? = some a ∧ deleteAppointment s owner a.id = (.noContent, s.eraseIdx i) := by
  obtain ⟨k, hk⟩ := List.getElem?_of_mem ha
  rcases deleteAppointment_cases s owner a.id with
    h | ⟨i, b, -, hb, hid, hown, -⟩ | ⟨i, b, -, hb, hid, -, h⟩
  · exact absurd rfl (h.1 a ha)
  · have hik := idsDistinct_index s hd i k b a hb hk hid
    subst hik
    rw [hk] at hb
    simp only [Option.some.injEq] at hb
    subst hb
    exact absurd ho.symm hown
  · have hik := idsDistinct_index s hd i k b a hb hk hid
    subst hik
    exact ⟨i, hk, h⟩

/-- In a store without conflicting pair, the entries at the other positions
leave the window of the entry at position `i` free on its room. -/
theorem window_free_after_eraseIdx (s : List Appointment) (hn : NoConflict s) (i : Nat)
    (a : Appointment) (ha : s[i]? = some a) :
    ¬ ∃ appt ∈ s.eraseIdx i, appt.roomId = a.roomId ∧ a.startTime < appt.endTime ∧
        a.endTime > appt.startTime := by
  rintro ⟨b, hb, hroom, hlo, hhi⟩
  obtain ⟨j, hji, hj⟩ := List.mem_eraseIdx_iff_getElem?.mp hb
  exact noConflict_getElem s hn i j a b (Ne.symm hji) ha hj hroom.symm ⟨hlo, hhi⟩

/-! ### The gate -/

theorem split_ne_nil (sep : Char) (cs : List Char) : split sep cs ≠ [] := by
  cases cs with
  | nil => simp [split]
  | cons c cs =>
    unfold split
    by_cases hc : c = sep
    · simp [hc]
    · simp only [hc, if_false]
      cases split sep cs <;> simp

theorem split_of_not_mem (sep : Char) (cs : List Char) (h : sep ∉ cs) :
    split sep cs = [cs] := by
  induction cs with
  | nil => simp [split]
  | cons c cs ih =>
    have hc : c ≠ sep := fun hc => h (by simp [hc])
    have hcs : sep ∉ cs := fun hmem => h (List.mem_cons_of_mem c hmem)
    simp [split, hc, ih hcs]

theorem split_append_sep (sep : Char) (pre rest : List Char) (h : sep ∉ pre) :
    split sep (pre ++ sep :: rest) = pre :: split sep rest := by
  induction pre with
  | nil => simp [split]
  | cons c cs ih =>
    have hc : c ≠ sep := fun hc => h (by simp [hc])
    have hcs : sep ∉ cs := fun hmem => h (List.mem_cons_of_mem c hmem)
    simp [split, hc, ih hcs]

/-- The gate on a header that has a token part: the lookup of the decoded
user id decides. -/
theorem authenticate_of_token (env : Env) (header : String) (token : List Char)
    (hne : header ≠ "") (htok : (split ' ' header.data)[1]? = some token) :
    authenticate env (some header) =
      match env.users.find? (fun u => u.id == decodedUserId env token) with
      | none => .error tokenInvalid
      | some user => .ok user := by
  simp only [authenticate, hne, if_false, htok, decodedUserId]

theorem authenticate_missing (env : Env) (authHeader : Option String)
    (h : authHeader = none ∨ authHeader = some "") :
    authenticate env authHeader = .error tokenMissing := by
  rcases h with h | h <;> subst h <;> simp [authenticate]

/-- Every way the gate can end. -/
theorem authenticate_cases (env : Env) (authHeader : Option String) :
    ((authHeader = none ∨ authHeader = some "") ∧
        authenticate env authHeader = .error tokenMissing) ∨
    (∃ header, authHeader = some header ∧ header ≠ "" ∧ (split ' ' header.data)[1]? = none ∧
        authenticate env authHeader = .error .uncaught) ∨
    (∃ header token, authHeader = some header ∧ header ≠ "" ∧
        (split ' ' header.data)[1]? = some token ∧
        (∀ u ∈ env.users, u.id ≠ decodedUserId env token) ∧
        authenticate env authHeader = .error tokenInvalid) ∨
    (∃ header token user, authHeader = some header ∧ header ≠ "" ∧
        (split ' ' header.data)[1]? = some token ∧ user ∈ env.users ∧
        user.id = decodedUserId env token ∧
        env.users.find? (fun u => u.id == decodedUserId env token) = some user ∧
        authenticate env authHeader = .ok user) := by
  cases authHeader with
  | none => exact Or.inl ⟨Or.inl rfl, authenticate_missing env none (Or.inl rfl)⟩
  | some header =>
    by_cases hne : header = ""
    · subst hne
      exact Or.inl ⟨Or.inr rfl, authenticate_missing env (some "") (Or.inr rfl)⟩
    · right
      cases htok : (split ' ' header.data)[1]? with
      | none =>
        left
        exact ⟨header, rfl, hne, htok, by simp [authenticate, hne, htok]⟩
      | some token =>
        right
        have hauth := authenticate_of_token env header token hne htok
        cases hfind : env.users.find? (fun u => u.id == decodedUserId env token) with
        | none =>
          left
          rw [hfind] at hauth
          refine ⟨header, token, rfl, hne, htok, ?_, hauth⟩
          intro u hu
          have := List.find?_eq_none.mp hfind u hu
          simpa using this
        | some user =>
          right
          rw [hfind] at hauth
          have hid : user.id = decodedUserId env token := by
            simpa using List.find?_some hfind
          exact ⟨header, token, user, rfl, hne, htok, List.mem_of_find?_eq_some hfind, hid,
            hfind, hauth⟩

/-- In a list of users with distinct ids, the lookup of the id of a listed user
finds this user. -/
theorem find_user_by_id (users : List User) (u : User)
    (hd : (users.map (·.id)).Nodup) (hu : u ∈ users) :
    users.find? (fun v => v.id == u.id) = some u := by
  induction users with
  | nil => simp at hu
  | cons v vs ih =>
    simp only [List.map_cons, List.nodup_cons] at hd
    by_cases hv : v.id = u.id
    · have huv : u = v := by
        rcases List.mem_cons.mp hu with h | h
        · exact h
        · have hin : u.id ∈ vs.map (·.id) := List.mem_map_of_mem (·.id) h
          rw [← hv] at hin
          exact absurd hin hd.1
      subst huv
      simp
    · have hmem : u ∈ vs := by
        rcases List.mem_cons.mp hu with h | h
        · exact absurd (by rw [h]) hv
        · exact h
      have hb : (v.id == u.id) = false := by simpa using hv
      rw [List.find?_cons, hb]
      exact ih hd.2 hmem

/-- The token part of the header `Bearer <token>`, for a token without space. -/
theorem bearer_token_part (token : String) (hspace : ' ' ∉ token.data) :
    "Bearer " ++ token ≠ "" ∧
      (split ' ' ("Bearer " ++ token).data)[1]? = some token.data := by
  have hdata : ("Bearer " ++ token).data =
      ['B', 'e', 'a', 'r', 'e', 'r'] ++ ' ' :: token.data := by
    rw [String.data_append]
    rfl
  constructor
  · intro h
    have := congrArg String.data h
    rw [hdata] at this
    simp at this
  · rw [hdata, split_append_sep ' ' _ _ (by decide), split_of_not_mem ' ' _ hspace]
    rfl

/-- The user id read in the string `<id>:<rest>`, for an id without colon. -/
theorem split_colon_head (userId rest : String) (hcolon : ':' ∉ userId.data) :
    String.mk ((split ':' (userId ++ ":" ++ rest).data).headD []) = userId := by
  have hdata : (userId ++ ":" ++ rest).data = userId.data ++ ':' :: rest.data := by
    rw [String.data_append, String.data_append]
    simp
  rw [hdata, split_append_sep ':' _ _ hcolon]
  rfl

/-- A header that is not empty and holds no space has no token part, and the
gate ends in an exception. -/
theorem authenticate_without_token_part (env : Env) (header : String) (hne : header ≠ "")
    (hspace : ' ' ∉ header.data) :
    authenticate env (some header) = .error .uncaught := by
  simp [authenticate, hne, split_of_not_mem ' ' header.data hspace]

/-- A create on a catalog room with an invalid date passes the three checks and
ends in the exception thrown by `toISOString`. -/
theorem postAppointments_invalid_date (rooms : List Room) (s : List Appointment) (user : User)
    (body : CreateBody) (uuid : String)
    (hroom : ∃ room ∈ rooms, room.id = body.roomId)
    (hbad : body.startTime = none ∨ body.endTime = none) :
    postAppointments rooms s user body uuid = (.uncaught, s) := by
  obtain ⟨roomId, startTime, endTime⟩ := body
  have hr := (any_room_iff rooms roomId).mpr hroom
  have hg : JsDate.ge startTime endTime = false := by
    rcases hbad with h | h <;> simp only at h <;> subst h
    · rfl
    · cases startTime <;> rfl
  have hc : s.any (overlaps roomId startTime endTime) = false := by
    rw [List.any_eq_false]
    intro appt _
    rcases hbad with h | h <;> simp only at h <;> subst h
    · simp [overlaps, JsDate.lt]
    · cases startTime <;> simp [overlaps, JsDate.lt, JsDate.gt, newDate]
  simp only [postAppointments, hr, hg, hc]
  rcases hbad with h | h <;> simp only at h <;> subst h
  · simp [toISOString]
  · cases startTime <;> simp [toISOString]

/-- Two creates served one after the other on the same catalog room, with valid
windows that overlap: the second is refused when the first was stored. -/
theorem overlapping_creates_not_both_created (rooms : List Room) (s : List Appointment)
    (u1 u2 : User) (r : String) (s1 e1 s2 e2 : Int) (id1 id2 : String)
    (hroom : ∃ room ∈ rooms, room.id = r) (h2 : s2 < e2)
    (hover : s1 < e2 ∧ e1 > s2) (a1 : Appointment)
    (hfirst : (postAppointments rooms s u1 ⟨r, some s1, some e1⟩ id1).1 = .created a1) :
    postAppointments rooms (postAppointments rooms s u1 ⟨r, some s1, some e1⟩ id1).2 u2
        ⟨r, some s2, some e2⟩ id2 =
      (conflictResponse, (postAppointments rooms s u1 ⟨r, some s1, some e1⟩ id1).2) := by
  apply postAppointments_conflict rooms _ u2 r s2 e2 id2 hroom h2
  rcases postAppointments_cases rooms s u1 ⟨r, some s1, some e1⟩ id1 with
    hc | hc | hc | hc | ⟨st, en, -, hst, hen, -, -, hc⟩
  · rw [hc.2] at hfirst; simp [roomNotFound] at hfirst
  · rw [hc.2.2] at hfirst; simp [invalidRange] at hfirst
  · rw [hc.2.2.2] at hfirst; simp [conflictResponse] at hfirst
  · rw [hc.2.2] at hfirst; simp at hfirst
  · simp only [Option.some.injEq] at hst hen
    subst hst hen
    rw [hc]
    refine ⟨⟨id1, r, u1.id, s1, e1⟩, by simp, rfl, ?_, ?_⟩
    · exact hover.2
    · exact hover.1

/-- The method `Array.prototype.find` returns the first element that passes. -/
theorem find_first {α : Type} (p : α → Bool) (l₁ l₂ : List α) (x : α)
    (hbefore : ∀ y ∈ l₁, p y = false) (hx : p x = true) :
    (l₁ ++ x :: l₂).find? p = some x := by
  induction l₁ with
  | nil => simp [List.find?, hx]
  | cons y ys ih =>
    have hy : p y = false := hbefore y (by simp)
    rw [List.cons_append, List.find?_cons, hy]
    exact ih (fun z hz => hbefore z (List.mem_cons_of_mem y hz))

theorem credentials_test_iff (u : User) (username password : String) :
    (u.username == username && u.password == password) = true ↔
      u.username = username ∧ u.password = password := by
  simp

/-! ### The example codec -/

theorem exampleDecodeChars_encode (cs : List Char) :
    exampleDecodeChars (exampleEncodeChars cs) = cs := by
  induction cs with
  | nil => rfl
  | cons c cs ih =>
    by_cases hc : c = ' '
    · subst hc
      simp [exampleEncodeChars, exampleDecodeChars, ih]
    · simp [exampleEncodeChars, exampleDecodeChars, hc, ih]

theorem exampleEncodeChars_no_space (cs : List Char) : ' ' ∉ exampleEncodeChars cs := by
  induction cs with
  | nil => simp [exampleEncodeChars]
  | cons c cs ih =>
    by_cases hc : c = ' '
    · subst hc
      simp [exampleEncodeChars, ih]
    · have hc' : ¬ ' ' = c := fun h => hc h.symm
      simp [exampleEncodeChars, hc, hc', ih]

theorem exampleDecode_encode (s : String) : exampleDecode (exampleEncode s) = s := by
  simp [exampleDecode, exampleEncode, exampleDecodeChars_encode]

theorem exampleEncode_no_space (s : String) : ' ' ∉ (exampleEncode s).data :=
  exampleEncodeChars_no_space s.data

/-- The user id that the gate reads in the token issued for `userId` at clock
value `now`, when the decoder inverts the encoder and the id holds no colon. -/
theorem decodedUserId_issueToken (env : Env) (base64Encode : String → String)
    (userId : String) (now : Nat)
    (hcodec : ∀ s : String, env.base64Decode (base64Encode s) = s)
    (hcolon : ':' ∉ userId.data) :
    decodedUserId env (issueToken base64Encode userId now).data = userId := by
  unfold decodedUserId issueToken
  rw [show String.mk (base64Encode (userId ++ ":" ++ toString now)).data =
    base64Encode (userId ++ ":" ++ toString now) from rfl, hcodec]
  exact split_colon_head userId (toString now) hcolon

/-- The answer of login when `u` is the first user of the list with the
credentials: the encoded string made of the id of `u`, a colon and the clock
value in decimal. -/
theorem login_first_match (users : List User) (base64Encode : String → String) (now : Nat)
    (username password : String) (l₁ l₂ : List User) (u : User)
    (hsplit : users = l₁ ++ u :: l₂)
    (hbefore : ∀ v ∈ l₁, ¬ (v.username = username ∧ v.password = password))
    (hu : u.username = username ∧ u.password = password) :
    login users base64Encode now username password =
      .token (base64Encode (u.id ++ ":" ++ toString now)) := by
  have hfind : users.find? (fun u => u.username == username && u.password == password) =
      some u := by
    rw [hsplit]
    apply find_first
    · intro v hv
      have := hbefore v hv
      rw [← credentials_test_iff] at this
      simpa using this
    · exact (credentials_test_iff u username password).mpr hu
  simp only [login, hfind, issueToken]

/-- The answer of login when no user of the list has the credentials. -/
theorem login_no_match (users : List User) (base64Encode : String → String) (now : Nat)
    (username password : String)
    (hno : ¬ ∃ u ∈ users, u.username = username ∧ u.password = password) :
    login users base64Encode now username password = invalidCredentials := by
  have hfind : users.find? (fun u => u.username == username && u.password == password) =
      none := by
    rw [List.find?_eq_none]
    intro v hv htest
    exact hno ⟨v, hv, (credentials_test_iff v username password).mp htest⟩
  simp only [login, hfind]

/-- A list that holds an element passing a test is cut at the first such
element. -/
theorem exists_first {α : Type} (p : α → Prop) [DecidablePred p] (l : List α) (x : α)
    (hx : x ∈ l) (hp : p x) :
    ∃ l₁ y l₂, l = l₁ ++ y :: l₂ ∧ (∀ z ∈ l₁, ¬ p z) ∧ p y := by
  induction l with
  | nil => simp at hx
  | cons z zs ih =>
    by_cases hz : p z
    · exact ⟨[], z, zs, rfl, by simp, hz⟩
    · have hmem : x ∈ zs := by
        rcases List.mem_cons.mp hx with h | h
        · exact absurd (h ▸ hp) hz
        · exact h
      obtain ⟨l₁, y, l₂, hl, hbefore, hy⟩ := ih hmem
      refine ⟨z :: l₁, y, l₂, by rw [hl]; rfl, ?_, hy⟩
      intro w hw
      rcases List.mem_cons.mp hw with h | h
      · rw [h]; exact hz
      · exact hbefore w h

/-! ## The claims -/

/-- C1: in every store reachable from the empty one by serving requests
(create, cancel and the read-only routes, accepted or refused, whatever
identifiers are drawn), two entries at different positions that are on the same
room never satisfy `a.startTime < b.endTime` and `a.endTime > b.startTime`. -/
theorem reachable_no_conflicting_pair (env : Env) (s : List Appointment)
    (h : Reachable env s) (i j : Nat) (a b : Appointment) (hij : i ≠ j)
    (ha : s[i]? = some a) (hb : s[j]? = some b) (hroom : a.roomId = b.roomId) :
    ¬ (a.startTime < b.endTime ∧ a.endTime > b.startTime) :=
  noConflict_getElem s (noConflict_of_reachable env s h) i j a b hij ha hb hroom

/-- Witness of C1: the store holding the two touching bookings of the example is
reachable, and its two entries do not conflict. -/
theorem reachable_no_conflicting_pair_witness :
    Reachable exampleEnv [exampleAppt1, exampleAppt2] ∧
      ¬ (exampleAppt1.startTime < exampleAppt2.endTime ∧
          exampleAppt1.endTime > exampleAppt2.startTime) :=
  ⟨reachable_example,
    reachable_no_conflicting_pair exampleEnv [exampleAppt1, exampleAppt2] reachable_example
      0 1 exampleAppt1 exampleAppt2 (by decide) rfl rfl rfl⟩

/-- C2: on a catalog room and a window `start < stop`, create answers Conflict
exactly when some stored appointment of the same room satisfies
`start < appt.endTime` and `stop > appt.startTime`; a store whose appointments
are all on other rooms never gives Conflict; and when no stored appointment of
the room overlaps, create succeeds and appends the new appointment. -/
theorem create_conflict_iff (rooms : List Room) (s : List Appointment) (user : User)
    (roomId : String) (start stop : Int) (uuid : String)
    (hroom : ∃ room ∈ rooms, room.id = roomId) (hlt : start < stop) :
    ((postAppointments rooms s user ⟨roomId, some start, some stop⟩ uuid).1 = conflictResponse ↔
        ∃ appt ∈ s, appt.roomId = roomId ∧ start < appt.endTime ∧ stop > appt.startTime) ∧
      ((∀ appt ∈ s, appt.roomId ≠ roomId) →
        (postAppointments rooms s user ⟨roomId, some start, some stop⟩ uuid).1 ≠
          conflictResponse) ∧
      ((¬ ∃ appt ∈ s, appt.roomId = roomId ∧ start < appt.endTime ∧ stop > appt.startTime) →
        postAppointments rooms s user ⟨roomId, some start, some stop⟩ uuid =
          (.created ⟨uuid, roomId, user.id, start, stop⟩,
            s ++ [⟨uuid, roomId, user.id, start, stop⟩])) := by
  have hiff : (postAppointments rooms s user ⟨roomId, some start, some stop⟩ uuid).1 =
        conflictResponse ↔
      ∃ appt ∈ s, appt.roomId = roomId ∧ start < appt.endTime ∧ stop > appt.startTime := by
    constructor
    · intro hres
      by_contra hfree
      rw [postAppointments_created rooms s user roomId start stop uuid hroom hlt hfree] at hres
      simp [conflictResponse] at hres
    · intro hbusy
      rw [postAppointments_conflict rooms s user roomId start stop uuid hroom hlt hbusy]
  refine ⟨hiff, ?_, ?_⟩
  · intro hother hres
    obtain ⟨appt, hmem, hr, -⟩ := hiff.mp hres
    exact hother appt hmem hr
  · intro hfree
    exact postAppointments_created rooms s user roomId start stop uuid hroom hlt hfree

/-- Witness of C2: with the first example booking stored, a create on the same
room for the window from 570 to 630. -/
theorem create_conflict_iff_witness :
    (∃ room ∈ [exampleRoom], room.id = "r1") ∧ (570 : Int) < 630 ∧
      ((postAppointments [exampleRoom] [exampleAppt1] exampleUser2
          ⟨"r1", some 570, some 630⟩ "a2").1 = conflictResponse ↔
        ∃ appt ∈ [exampleAppt1], appt.roomId = "r1" ∧ 570 < appt.endTime ∧
          630 > appt.startTime) :=
  ⟨⟨exampleRoom, by simp, rfl⟩, by decide,
    (create_conflict_iff [exampleRoom] [exampleAppt1] exampleUser2 "r1" 570 630 "a2"
      ⟨exampleRoom, by simp, rfl⟩ (by decide)).1⟩


/-- C3: touching boundaries are not a conflict.  On a catalog room `r` free in
the store and instants `s1 < e1 < e2`, the create of `[s1, e1)` followed by the
create of `[e1, e2)` both succeed, and so do the two creates in the opposite
order. -/
theorem touching_boundaries_both_succeed (rooms : List Room) (s : List Appointment)
    (u1 u2 : User) (r : String) (s1 e1 e2 : Int) (id1 id2 : String)
    (hroom : ∃ room ∈ rooms, room.id = r) (hfree : ∀ a ∈ s, a.roomId ≠ r)
    (h1 : s1 < e1) (h2 : e1 < e2) :
    ((postAppointments rooms s u1 ⟨r, some s1, some e1⟩ id1).1 =
          .created ⟨id1, r, u1.id, s1, e1⟩ ∧
        (postAppointments rooms (postAppointments rooms s u1 ⟨r, some s1, some e1⟩ id1).2 u2
            ⟨r, some e1, some e2⟩ id2).1 = .created ⟨id2, r, u2.id, e1, e2⟩) ∧
      ((postAppointments rooms s u2 ⟨r, some e1, some e2⟩ id2).1 =
          .created ⟨id2, r, u2.id, e1, e2⟩ ∧
        (postAppointments rooms (postAppointments rooms s u2 ⟨r, some e1, some e2⟩ id2).2 u1
            ⟨r, some s1, some e1⟩ id1).1 = .created ⟨id1, r, u1.id, s1, e1⟩) := by
  obtain ⟨ha, hb⟩ := two_creates rooms s u1 u2 r s1 e1 e1 e2 id1 id2 hroom hfree h1 h2
    (Or.inl (le_refl e1))
  obtain ⟨hc, hd⟩ := two_creates rooms s u2 u1 r e1 e2 s1 e1 id2 id1 hroom hfree h2 h1
    (Or.inr (le_refl e1))
  refine ⟨⟨?_, ?_⟩, ⟨?_, ?_⟩⟩
  · rw [ha]
  · rw [ha, hb]
  · rw [hc]
  · rw [hc, hd]

/-- Witness of C3: the example room, empty store, windows from 540 to 600 and
from 600 to 660. -/
theorem touching_boundaries_both_succeed_witness :
    ((postAppointments [exampleRoom] [] exampleUser1 ⟨"r1", some 540, some 600⟩ "a1").1 =
          .created ⟨"a1", "r1", exampleUser1.id, 540, 600⟩ ∧
        (postAppointments [exampleRoom]
            (postAppointments [exampleRoom] [] exampleUser1 ⟨"r1", some 540, some 600⟩ "a1").2
            exampleUser2 ⟨"r1", some 600, some 660⟩ "a2").1 =
          .created ⟨"a2", "r1", exampleUser2.id, 600, 660⟩) ∧
      ((postAppointments [exampleRoom] [] exampleUser2 ⟨"r1", some 600, some 660⟩ "a2").1 =
          .created ⟨"a2", "r1", exampleUser2.id, 600, 660⟩ ∧
        (postAppointments [exampleRoom]
            (postAppointments [exampleRoom] [] exampleUser2 ⟨"r1", some 600, some 660⟩ "a2").2
            exampleUser1 ⟨"r1", some 540, some 600⟩ "a1").1 =
          .created ⟨"a1", "r1", exampleUser1.id, 540, 600⟩) :=
  touching_boundaries_both_succeed [exampleRoom] [] exampleUser1 exampleUser2 "r1" 540 600 660
    "a1" "a2" ⟨exampleRoom, by simp, rfl⟩ (by simp) (by decide) (by decide)

/-- C4: on a catalog room `r` free in the store and two valid windows
`[s1, e1)`, `[s2, e2)` that do not overlap (`e1 ≤ s2` or `e2 ≤ s1`), the create
of the first followed by the create of the second both succeed, and both
appointments are in the store afterwards. -/
theorem disjoint_windows_both_succeed (rooms : List Room) (s : List Appointment)
    (u1 u2 : User) (r : String) (s1 e1 s2 e2 : Int) (id1 id2 : String)
    (hroom : ∃ room ∈ rooms, room.id = r) (hfree : ∀ a ∈ s, a.roomId ≠ r)
    (h1 : s1 < e1) (h2 : s2 < e2) (hdisj : e1 ≤ s2 ∨ e2 ≤ s1) :
    (postAppointments rooms s u1 ⟨r, some s1, some e1⟩ id1).1 =
        .created ⟨id1, r, u1.id, s1, e1⟩ ∧
      (postAppointments rooms (postAppointments rooms s u1 ⟨r, some s1, some e1⟩ id1).2 u2
          ⟨r, some s2, some e2⟩ id2).1 = .created ⟨id2, r, u2.id, s2, e2⟩ ∧
      (⟨id1, r, u1.id, s1, e1⟩ : Appointment) ∈
        (postAppointments rooms (postAppointments rooms s u1 ⟨r, some s1, some e1⟩ id1).2 u2
          ⟨r, some s2, some e2⟩ id2).2 ∧
      (⟨id2, r, u2.id, s2, e2⟩ : Appointment) ∈
        (postAppointments rooms (postAppointments rooms s u1 ⟨r, some s1, some e1⟩ id1).2 u2
          ⟨r, some s2, some e2⟩ id2).2 ∧
      (postAppointments rooms (postAppointments rooms s u1 ⟨r, some s1, some e1⟩ id1).2 u2
          ⟨r, some s2, some e2⟩ id2).2 =
        s ++ [⟨id1, r, u1.id, s1, e1⟩, ⟨id2, r, u2.id, s2, e2⟩] := by
  obtain ⟨ha, hb⟩ := two_creates rooms s u1 u2 r s1 e1 s2 e2 id1 id2 hroom hfree h1 h2 hdisj
  rw [ha]
  simp only
  rw [hb]
  simp

/-- Witness of C4: the example room, empty store, the later window from 700 to
760 booked first and the earlier one from 540 to 600 second. -/
theorem disjoint_windows_both_succeed_witness :
    (postAppointments [exampleRoom]
        (postAppointments [exampleRoom] [] exampleUser1 ⟨"r1", some 700, some 760⟩ "a1").2
        exampleUser2 ⟨"r1", some 540, some 600⟩ "a2").2 =
      [] ++ [⟨"a1", "r1", exampleUser1.id, 700, 760⟩, ⟨"a2", "r1", exampleUser2.id, 540, 600⟩] :=
  (disjoint_windows_both_succeed [exampleRoom] [] exampleUser1 exampleUser2 "r1" 700 760 540 600
    "a1" "a2" ⟨exampleRoom, by simp, rfl⟩ (by simp) (by decide) (by decide)
    (Or.inr (by decide))).2.2.2.2

/-- C5, as stated, fails: on a room that is not in the catalog, a create with
`startTime = endTime` is answered with RoomNotFound and not with InvalidRange. -/
theorem invalid_range_unknown_room_counterexample :
    (5 : Int) ≥ 5 ∧
      (postAppointments [exampleRoom] [] exampleUser1 ⟨"r9", some 5, some 5⟩ "a1").1 =
        roomNotFound ∧
      (postAppointments [exampleRoom] [] exampleUser1 ⟨"r9", some 5, some 5⟩ "a1").1 ≠
        invalidRange := by
  decide

/-- C5, amended: for every store, every room of the catalog and every pair of
instants with `startTime ≥ endTime`, create fails with InvalidRange and leaves
the store as it was. -/
theorem invalid_range_on_catalog_room (rooms : List Room) (s : List Appointment) (user : User)
    (roomId : String) (startTime endTime : Int) (uuid : String)
    (hroom : ∃ room ∈ rooms, room.id = roomId) (hge : startTime ≥ endTime) :
    postAppointments rooms s user ⟨roomId, some startTime, some endTime⟩ uuid =
      (invalidRange, s) := by
  have hr := (any_room_iff rooms roomId).mpr hroom
  have hg : JsDate.ge (some startTime) (some endTime) = true := by
    simp [JsDate.ge, hge]
  simp only [postAppointments, hr, hg]
  simp

/-- Witness of amended C5: the example room with `startTime = endTime = 5`. -/
theorem invalid_range_on_catalog_room_witness :
    (∃ room ∈ [exampleRoom], room.id = "r1") ∧ (5 : Int) ≥ 5 ∧
      postAppointments [exampleRoom] [exampleAppt1] exampleUser1 ⟨"r1", some 5, some 5⟩ "a9" =
        (invalidRange, [exampleAppt1]) :=
  ⟨⟨exampleRoom, by simp, rfl⟩, by decide,
    invalid_range_on_catalog_room [exampleRoom] [exampleAppt1] exampleUser1 "r1" 5 5 "a9"
      ⟨exampleRoom, by simp, rfl⟩ (by decide)⟩


/-- C6: a create whose `roomId` is the id of no room of the catalog fails with
RoomNotFound whatever the two dates are (valid or not), in every store; and in
every reachable store the `roomId` of each stored appointment is the id of a
room of the catalog. -/
theorem unknown_room_rejected (env : Env) :
    (∀ (s : List Appointment) (user : User) (body : CreateBody) (uuid : String),
        (∀ room ∈ env.rooms, room.id ≠ body.roomId) →
          postAppointments env.rooms s user body uuid = (roomNotFound, s)) ∧
      (∀ s : List Appointment, Reachable env s →
        ∀ a ∈ s, ∃ room ∈ env.rooms, room.id = a.roomId) :=
  ⟨fun s user body uuid hroom => postAppointments_unknown_room env.rooms s user body uuid hroom,
    fun s h => rooms_known_of_reachable env s h⟩

/-- Witness of C6: a create on the unknown room `r9` with an invalid start date,
and the reachable store of the example. -/
theorem unknown_room_rejected_witness :
    (∀ room ∈ exampleEnv.rooms, room.id ≠ "r9") ∧
      postAppointments exampleEnv.rooms [exampleAppt1] exampleUser1 ⟨"r9", none, some 7⟩ "a9" =
        (roomNotFound, [exampleAppt1]) ∧
      Reachable exampleEnv [exampleAppt1, exampleAppt2] ∧
      (∀ a ∈ [exampleAppt1, exampleAppt2], ∃ room ∈ exampleEnv.rooms, room.id = a.roomId) :=
  ⟨by decide,
    (unknown_room_rejected exampleEnv).1 [exampleAppt1] exampleUser1 ⟨"r9", none, some 7⟩ "a9"
      (by decide),
    reachable_example,
    (unknown_room_rejected exampleEnv).2 [exampleAppt1, exampleAppt2] reachable_example⟩

/-- C7: a create request that does not end in the 201 answer (refused by the
gate, RoomNotFound, InvalidRange, Conflict, or an exception) leaves the
appointment store exactly as it was; the same holds of the route handler taken
alone, for any user. -/
theorem create_failure_leaves_store (env : Env) (s : List Appointment) :
    (∀ (authHeader : Option String) (body : CreateBody) (uuid : String),
        (∀ a, (handle env s authHeader (.postAppointments body) uuid).1 ≠ .created a) →
          (handle env s authHeader (.postAppointments body) uuid).2 = s) ∧
      (∀ (user : User) (body : CreateBody) (uuid : String),
        (∀ a, (postAppointments env.rooms s user body uuid).1 ≠ .created a) →
          (postAppointments env.rooms s user body uuid).2 = s) := by
  refine ⟨?_, fun user body uuid h =>
    postAppointments_store_of_not_created env.rooms s user body uuid h⟩
  intro authHeader body uuid h
  unfold handle at h ⊢
  cases ha : authenticate env authHeader with
  | error res => simp
  | ok user =>
    simp only [ha] at h ⊢
    exact postAppointments_store_of_not_created env.rooms s user body uuid h

/-- Witness of C7: a create that overlaps the stored booking of the example, and
a create with an invalid end date that ends in an exception. -/
theorem create_failure_leaves_store_witness :
    (handle exampleEnv [exampleAppt1] (some "Bearer u2:0")
        (.postAppointments ⟨"r1", some 570, some 630⟩) "a2").2 = [exampleAppt1] ∧
      (postAppointments exampleEnv.rooms [exampleAppt1] exampleUser2
        ⟨"r1", some 700, none⟩ "a2").2 = [exampleAppt1] :=
  ⟨(create_failure_leaves_store exampleEnv [exampleAppt1]).1 (some "Bearer u2:0")
      ⟨"r1", some 570, some 630⟩ "a2"
      (fun a hres => absurd ((show (handle exampleEnv [exampleAppt1] (some "Bearer u2:0")
          (.postAppointments ⟨"r1", some 570, some 630⟩) "a2").1 = conflictResponse by
            decide).symm.trans hres) (by simp [conflictResponse])),
    (create_failure_leaves_store exampleEnv [exampleAppt1]).2 exampleUser2
      ⟨"r1", some 700, none⟩ "a2"
      (fun a hres => absurd ((show (postAppointments exampleEnv.rooms [exampleAppt1] exampleUser2
          ⟨"r1", some 700, none⟩ "a2").1 = .uncaught by decide).symm.trans hres) (by simp))⟩

/-- C8: when a create by user `u` succeeds, the appointment returned carries the
identifier drawn, the requested `roomId`, `userId = u.id` and the two requested
instants; the list served right afterwards is the list served before the create
with exactly this appointment appended at the end. -/
theorem create_list_round_trip (rooms : List Room) (s : List Appointment) (u : User)
    (body : CreateBody) (uuid : String) (appt : Appointment)
    (h : (postAppointments rooms s u body uuid).1 = .created appt) :
    appt.id = uuid ∧ appt.roomId = body.roomId ∧ appt.userId = u.id ∧
      body.startTime = some appt.startTime ∧ body.endTime = some appt.endTime ∧
      (getAppointments s).1 = .appointments s ∧
      (getAppointments (postAppointments rooms s u body uuid).2).1 =
        .appointments (s ++ [appt]) ∧
      (getAppointments (postAppointments rooms s u body uuid).2).2 = s ++ [appt] := by
  rcases postAppointments_cases rooms s u body uuid with
    hc | hc | hc | hc | ⟨st, en, -, hst, hen, -, -, hc⟩
  · rw [hc.2] at h; simp [roomNotFound] at h
  · rw [hc.2.2] at h; simp [invalidRange] at h
  · rw [hc.2.2.2] at h; simp [conflictResponse] at h
  · rw [hc.2.2] at h; simp at h
  · rw [hc] at h ⊢
    simp only [Response.created.injEq] at h
    subst h
    simp [getAppointments, hst, hen]

/-- Witness of C8: the second booking of the example, made on the store that
holds the first one. -/
theorem create_list_round_trip_witness :
    (postAppointments [exampleRoom] [exampleAppt1] exampleUser2
        ⟨"r1", some 600, some 660⟩ "a2").1 = .created exampleAppt2 ∧
      (getAppointments (postAppointments [exampleRoom] [exampleAppt1] exampleUser2
        ⟨"r1", some 600, some 660⟩ "a2").2).1 =
        .appointments ([exampleAppt1] ++ [exampleAppt2]) :=
  ⟨by decide,
    (create_list_round_trip [exampleRoom] [exampleAppt1] exampleUser2
      ⟨"r1", some 600, some 660⟩ "a2" exampleAppt2 (by decide)).2.2.2.2.2.2.1⟩


/-- C9: in a store whose identifiers are pairwise distinct (as in every store
reachable with fresh identifiers), the cancel of a stored appointment `a` by a
user `u` with `u.id ≠ a.userId` fails with Forbidden, the store afterwards is
the store before, and `a` is still in it. -/
theorem cancel_by_other_user_forbidden (s : List Appointment) (a : Appointment) (u : User)
    (hd : idsDistinct s) (ha : a ∈ s) (hu : u.id ≠ a.userId) :
    (deleteAppointment s u a.id).1 = forbidden ∧ (deleteAppointment s u a.id).2 = s ∧
      a ∈ (deleteAppointment s u a.id).2 := by
  rw [deleteAppointment_forbidden s a u hd ha hu]
  exact ⟨rfl, rfl, ha⟩

/-- Witness of C9: the second user of the example tries to cancel the booking of
the first. -/
theorem cancel_by_other_user_forbidden_witness :
    idsDistinct [exampleAppt1, exampleAppt2] ∧ exampleAppt1 ∈ [exampleAppt1, exampleAppt2] ∧
      exampleUser2.id ≠ exampleAppt1.userId ∧
      (deleteAppointment [exampleAppt1, exampleAppt2] exampleUser2 exampleAppt1.id).1 =
        forbidden ∧
      (deleteAppointment [exampleAppt1, exampleAppt2] exampleUser2 exampleAppt1.id).2 =
        [exampleAppt1, exampleAppt2] ∧
      exampleAppt1 ∈
        (deleteAppointment [exampleAppt1, exampleAppt2] exampleUser2 exampleAppt1.id).2 :=
  ⟨idsDistinct_of_reachableFresh exampleEnv _ reachableFresh_example, by simp, by decide,
    cancel_by_other_user_forbidden [exampleAppt1, exampleAppt2] exampleAppt1 exampleUser2
      (idsDistinct_of_reachableFresh exampleEnv _ reachableFresh_example) (by simp)
      (by decide)⟩

/-- C10: in a store reachable with fresh identifiers, the cancel of a stored
appointment `a` by its owner succeeds, and a second cancel of the same
identifier by any user fails with NotFound and leaves the store as the first
cancel left it; in any store whatever, cancel fails with NotFound exactly when
no stored appointment has the given identifier. -/
theorem cancel_twice_not_found (env : Env) (s : List Appointment) (a : Appointment)
    (owner : User) (hr : ReachableFresh env s) (ha : a ∈ s) (ho : owner.id = a.userId) :
    (deleteAppointment s owner a.id).1 = .noContent ∧
      (∀ u : User, deleteAppointment (deleteAppointment s owner a.id).2 u a.id =
        (notFound, (deleteAppointment s owner a.id).2)) ∧
      (∀ (t : List Appointment) (u : User) (id : String),
        (deleteAppointment t u id).1 = notFound ↔ ∀ b ∈ t, b.id ≠ id) := by
  obtain ⟨hfirst, hgone⟩ :=
    deleteAppointment_owner s a owner (idsDistinct_of_reachableFresh env s hr) ha ho
  refine ⟨hfirst, ?_, fun t u id => deleteAppointment_notFound_iff t u id⟩
  intro u
  rcases deleteAppointment_cases (deleteAppointment s owner a.id).2 u a.id with
    h | ⟨i, b, -, hb, hid, -, -⟩ | ⟨i, b, -, hb, hid, -, -⟩
  · exact h.2
  · exact absurd hid (hgone b (List.getElem?_mem hb))
  · exact absurd hid (hgone b (List.getElem?_mem hb))

/-- Witness of C10: in the reachable store of the example, the first user
cancels the first booking, then the second user tries to cancel it again. -/
theorem cancel_twice_not_found_witness :
    ReachableFresh exampleEnv [exampleAppt1, exampleAppt2] ∧
      exampleAppt1 ∈ [exampleAppt1, exampleAppt2] ∧ exampleUser1.id = exampleAppt1.userId ∧
      (deleteAppointment [exampleAppt1, exampleAppt2] exampleUser1 exampleAppt1.id).1 =
        .noContent ∧
      deleteAppointment
          (deleteAppointment [exampleAppt1, exampleAppt2] exampleUser1 exampleAppt1.id).2
          exampleUser2 exampleAppt1.id =
        (notFound,
          (deleteAppointment [exampleAppt1, exampleAppt2] exampleUser1 exampleAppt1.id).2) :=
  ⟨reachableFresh_example, by simp, rfl,
    (cancel_twice_not_found exampleEnv [exampleAppt1, exampleAppt2] exampleAppt1 exampleUser1
      reachableFresh_example (by simp) rfl).1,
    (cancel_twice_not_found exampleEnv [exampleAppt1, exampleAppt2] exampleAppt1 exampleUser1
      reachableFresh_example (by simp) rfl).2.1 exampleUser2⟩


/-- C11: in a store reachable with fresh identifiers, the cancel of a stored
appointment `a` by its owner succeeds and the store afterwards is the store
before with exactly `a` taken out: the entries before `a` and the entries after
`a` are kept as they were and in the same order, `a` is no longer stored, and
the store holds one entry fewer. -/
theorem cancel_removes_exactly_one (env : Env) (s : List Appointment) (a : Appointment)
    (owner : User) (hr : ReachableFresh env s) (ha : a ∈ s) (ho : owner.id = a.userId) :
    ∃ l₁ l₂, s = l₁ ++ a :: l₂ ∧
      deleteAppointment s owner a.id = (.noContent, l₁ ++ l₂) ∧
      a ∉ l₁ ++ l₂ ∧
      (∀ b ∈ s, b ≠ a → b ∈ l₁ ++ l₂) ∧
      (deleteAppointment s owner a.id).2.length + 1 = s.length := by
  have hd := idsDistinct_of_reachableFresh env s hr
  obtain ⟨i, hi, hdel⟩ := deleteAppointment_owner_eraseIdx s a owner hd ha ho
  obtain ⟨l₁, l₂, hs, he⟩ := eraseIdx_cut s i a hi
  have hgone := (deleteAppointment_owner s a owner hd ha ho).2
  rw [hdel] at hgone
  simp only at hgone
  rw [he] at hdel hgone
  refine ⟨l₁, l₂, hs, hdel, ?_, ?_, ?_⟩
  · intro hmem
    exact hgone a hmem rfl
  · intro b hb hne
    rw [hs] at hb
    simp only [List.mem_append, List.mem_cons] at hb ⊢
    rcases hb with hb | hb | hb
    · exact Or.inl hb
    · exact absurd hb hne
    · exact Or.inr hb
  · rw [hdel, hs]
    simp
    omega

/-- Witness of C11: in the reachable store of the example, the second user
cancels the second booking. -/
theorem cancel_removes_exactly_one_witness :
    ReachableFresh exampleEnv [exampleAppt1, exampleAppt2] ∧
      exampleAppt2 ∈ [exampleAppt1, exampleAppt2] ∧ exampleUser2.id = exampleAppt2.userId ∧
      ∃ l₁ l₂, [exampleAppt1, exampleAppt2] = l₁ ++ exampleAppt2 :: l₂ ∧
        deleteAppointment [exampleAppt1, exampleAppt2] exampleUser2 exampleAppt2.id =
          (.noContent, l₁ ++ l₂) ∧
        exampleAppt2 ∉ l₁ ++ l₂ ∧
        (∀ b ∈ [exampleAppt1, exampleAppt2], b ≠ exampleAppt2 → b ∈ l₁ ++ l₂) ∧
        (deleteAppointment [exampleAppt1, exampleAppt2] exampleUser2 exampleAppt2.id).2.length
          + 1 = [exampleAppt1, exampleAppt2].length :=
  ⟨reachableFresh_example, by simp, rfl,
    cancel_removes_exactly_one exampleEnv [exampleAppt1, exampleAppt2] exampleAppt2 exampleUser2
      reachableFresh_example (by simp) rfl⟩

/-- C12: in every store reachable from the empty one by serving requests (also
create requests whose dates are invalid), every stored appointment has
`startTime < endTime`. -/
theorem reachable_valid_ranges (env : Env) (s : List Appointment) (h : Reachable env s)
    (a : Appointment) (ha : a ∈ s) : a.startTime < a.endTime :=
  valid_range_of_reachable env s h a ha

/-- Witness of C12: the store of the example after one more create request,
whose start date is invalid. -/
theorem reachable_valid_ranges_witness :
    Reachable exampleEnv
        (handle exampleEnv [exampleAppt1, exampleAppt2] (some "Bearer u1:0")
          (.postAppointments ⟨"r1", none, some 700⟩) "a3").2 ∧
      exampleAppt2 ∈
        (handle exampleEnv [exampleAppt1, exampleAppt2] (some "Bearer u1:0")
          (.postAppointments ⟨"r1", none, some 700⟩) "a3").2 ∧
      exampleAppt2.startTime < exampleAppt2.endTime :=
  ⟨Reachable.step _ _ _ _ reachable_example, by decide,
    reachable_valid_ranges exampleEnv _ (Reachable.step [exampleAppt1, exampleAppt2]
      (some "Bearer u1:0") (.postAppointments ⟨"r1", none, some 700⟩) "a3" reachable_example)
      exampleAppt2 (by decide)⟩

/-- C13: token round trip.  Let the ids of the registered users be pairwise
distinct and the id of the registered user `u` hold no colon.  The token that
login builds from `u.id` and any clock value `now` (the encoding of the id, a
colon and the clock value), presented as `Bearer <token>`, is resolved by the
gate to `u` itself, whatever `now` is; so is the token that the login route
answers to the credentials of `u`, when no other user has them.  Of the
runtime's base64 codec two laws are assumed: decoding inverts encoding, and an
encoded string holds no space. -/
theorem token_round_trip (env : Env) (base64Encode : String → String) (u : User) (now : Nat)
    (hcodec : ∀ s : String, env.base64Decode (base64Encode s) = s)
    (hspace : ∀ s : String, ' ' ∉ (base64Encode s).data)
    (hu : u ∈ env.users) (hd : (env.users.map (·.id)).Nodup) (hcolon : ':' ∉ u.id.data) :
    authenticate env (some ("Bearer " ++ issueToken base64Encode u.id now)) = .ok u ∧
      authenticate env (some ("Bearer " ++ base64Encode (u.id ++ ":" ++ toString now))) =
        .ok u ∧
      ((∀ v ∈ env.users, v.username = u.username → v.password = u.password → v = u) →
        ∀ token, login env.users base64Encode now u.username u.password = .token token →
          authenticate env (some ("Bearer " ++ token)) = .ok u) := by
  have hissued : authenticate env (some ("Bearer " ++ issueToken base64Encode u.id now)) =
      .ok u := by
    obtain ⟨hne, htok⟩ :=
      bearer_token_part (issueToken base64Encode u.id now) (hspace _)
    rw [authenticate_of_token env _ _ hne htok,
      decodedUserId_issueToken env base64Encode u.id now hcodec hcolon,
      find_user_by_id env.users u hd hu]
  refine ⟨hissued, hissued, ?_⟩
  intro hunique token hlogin
  obtain ⟨l₁, v, l₂, hsplit, hbefore, hv⟩ :=
    exists_first (fun w : User => w.username = u.username ∧ w.password = u.password)
      env.users u hu ⟨rfl, rfl⟩
  have hvmem : v ∈ env.users := by
    rw [hsplit]
    simp
  have hvu : v = u := hunique v hvmem hv.1 hv.2
  subst hvu
  rw [login_first_match env.users base64Encode now v.username v.password l₁ l₂ v hsplit
    hbefore hv] at hlogin
  simp only [Response.token.injEq] at hlogin
  rw [← hlogin]
  exact hissued

/-- Witness of C13: the second user of the example at clock value 0, with the
example codec; the token is `aua2a:a0`. -/
theorem token_round_trip_witness :
    (∀ s : String, codecEnv.base64Decode (exampleEncode s) = s) ∧
      (∀ s : String, ' ' ∉ (exampleEncode s).data) ∧
      exampleUser2 ∈ codecEnv.users ∧ (codecEnv.users.map (·.id)).Nodup ∧
      ':' ∉ exampleUser2.id.data ∧
      issueToken exampleEncode exampleUser2.id 0 = "aua2a:a0" ∧
      authenticate codecEnv (some "Bearer aua2a:a0") = .ok exampleUser2 :=
  ⟨exampleDecode_encode, exampleEncode_no_space, by decide, by decide, by decide, by decide,
    (token_round_trip codecEnv exampleEncode exampleUser2 0 exampleDecode_encode
      exampleEncode_no_space (by decide) (by decide) (by decide)).1⟩

/-- C14, as stated, fails: a token whose decoded text is just a registered id,
with no separator and no timestamp, is resolved to that user. -/
theorem malformed_token_resolved_counterexample :
    ':' ∉ (exampleEnv.base64Decode "u1").data ∧
      authenticate exampleEnv (some "Bearer u1") = .ok exampleUser1 :=
  ⟨by decide, rfl⟩

/-- C14, amended: on an authorization header that has a token part, token
resolution fails with the invalid-token answer exactly when the decoded token,
read up to its first colon, is the id of no registered user; otherwise it
resolves to a registered user with that id. -/
theorem token_invalid_iff_unknown_id (env : Env) (header : String) (token : List Char)
    (hne : header ≠ "") (htok : (split ' ' header.data)[1]? = some token) :
    (authenticate env (some header) = .error tokenInvalid ↔
        ∀ u ∈ env.users, u.id ≠ decodedUserId env token) ∧
      ((∃ u ∈ env.users, u.id = decodedUserId env token) →
        ∃ u ∈ env.users, u.id = decodedUserId env token ∧
          authenticate env (some header) = .ok u) := by
  rcases authenticate_cases env (some header) with
    ⟨h, -⟩ | ⟨header', hh, -, hnone, -⟩ | ⟨header', token', hh, -, htok', hunknown, hres⟩ |
    ⟨header', token', user, hh, -, htok', hmem, hid, -, hres⟩
  · rcases h with h | h
    · simp at h
    · simp only [Option.some.injEq] at h
      exact absurd h hne
  · simp only [Option.some.injEq] at hh
    subst hh
    rw [htok] at hnone
    simp at hnone
  · simp only [Option.some.injEq] at hh
    subst hh
    rw [htok] at htok'
    simp only [Option.some.injEq] at htok'
    subst htok'
    refine ⟨⟨fun _ => hunknown, fun _ => hres⟩, ?_⟩
    rintro ⟨u, hu, hid⟩
    exact absurd hid (hunknown u hu)
  · simp only [Option.some.injEq] at hh
    subst hh
    rw [htok] at htok'
    simp only [Option.some.injEq] at htok'
    subst htok'
    refine ⟨⟨?_, ?_⟩, fun _ => ⟨user, hmem, hid, hres⟩⟩
    · intro h
      rw [hres] at h
      simp at h
    · intro h
      exact absurd hid (h user hmem)

/-- Witness of amended C14: the header `Bearer zz:0`, whose decoded id `zz` is
the id of no user of the example. -/
theorem token_invalid_iff_unknown_id_witness :
    ("Bearer zz:0" : String) ≠ "" ∧
      (split ' ' ("Bearer zz:0" : String).data)[1]? = some ['z', 'z', ':', '0'] ∧
      (authenticate exampleEnv (some "Bearer zz:0") = .error tokenInvalid ↔
        ∀ u ∈ exampleEnv.users, u.id ≠ decodedUserId exampleEnv ['z', 'z', ':', '0']) :=
  ⟨by decide, by decide,
    (token_invalid_iff_unknown_id exampleEnv "Bearer zz:0" ['z', 'z', ':', '0'] (by decide)
      (by decide)).1⟩

/-- C15, as stated, fails: a request whose token names no registered user is
answered with status 403, the status of the Forbidden answer to a non-owner
cancel, and not with the status 401 given when the header is missing. -/
theorem unresolved_token_status_counterexample :
    (∀ u ∈ exampleEnv.users, u.id ≠ decodedUserId exampleEnv ['z', 'z', ':', '0']) ∧
      (handle exampleEnv [] (some "Bearer zz:0") .getAppointments "a1").1 = tokenInvalid ∧
      (handle exampleEnv [] none .getAppointments "a1").1 = tokenMissing ∧
      tokenInvalid.status = forbidden.status ∧
      tokenInvalid.status ≠ tokenMissing.status := by
  decide

/-- C15, amended: for every request to a gated route, the gate answers with
status 401 when the authorization header is absent (or empty); when the header
has a token part whose decoded id is the id of no registered user, the gate
answers with status 403 and its own invalid-token message.  The store is left
as it was in both cases. -/
theorem gate_rejection_statuses (env : Env) (s : List Appointment) (req : Request)
    (uuid : String) :
    (∀ authHeader : Option String, authHeader = none ∨ authHeader = some "" →
        handle env s authHeader req uuid = (tokenMissing, s) ∧ tokenMissing.status = 401) ∧
      (∀ (header : String) (token : List Char), header ≠ "" →
        (split ' ' header.data)[1]? = some token →
        (∀ u ∈ env.users, u.id ≠ decodedUserId env token) →
        handle env s (some header) req uuid = (tokenInvalid, s) ∧ tokenInvalid.status = 403) := by
  constructor
  · intro authHeader h
    refine ⟨?_, rfl⟩
    simp only [handle, authenticate_missing env authHeader h]
  · intro header token hne htok hunknown
    have hfind : env.users.find? (fun u => u.id == decodedUserId env token) = none := by
      rw [List.find?_eq_none]
      intro u hu
      simpa using hunknown u hu
    refine ⟨?_, rfl⟩
    simp only [handle, authenticate_of_token env header token hne htok, hfind]

/-- Witness of amended C15: a cancel request without header and a create
request with the header `Bearer zz:0`, on the store of the example. -/
theorem gate_rejection_statuses_witness :
    (handle exampleEnv [exampleAppt1] none (.deleteAppointment "a1") "a9" =
        (tokenMissing, [exampleAppt1]) ∧ tokenMissing.status = 401) ∧
      (handle exampleEnv [exampleAppt1] (some "Bearer zz:0")
          (.postAppointments ⟨"r1", some 700, some 760⟩) "a9" =
        (tokenInvalid, [exampleAppt1]) ∧ tokenInvalid.status = 403) :=
  ⟨(gate_rejection_statuses exampleEnv [exampleAppt1] (.deleteAppointment "a1") "a9").1 none
      (Or.inl rfl),
    (gate_rejection_statuses exampleEnv [exampleAppt1]
      (.postAppointments ⟨"r1", some 700, some 760⟩) "a9").2 "Bearer zz:0"
      ['z', 'z', ':', '0'] (by decide) (by decide) (by decide)⟩

/-- C16: the gate blocks mutation.  A request (create, cancel or any other
gated route) on which the gate puts no user in `req.user`, because the header
is absent or the token resolves to no registered user, leaves the appointment
store as it was; and an appointment stored by a successful create has the
`userId` of the registered user that the gate resolved the token to. -/
theorem gate_blocks_mutation (env : Env) (s : List Appointment) (authHeader : Option String)
    (req : Request) (uuid : String) :
    ((∀ user, authenticate env authHeader ≠ .ok user) →
        (handle env s authHeader req uuid).2 = s) ∧
      (∀ a, (handle env s authHeader req uuid).1 = .created a →
        ∃ user ∈ env.users, authenticate env authHeader = .ok user ∧ a.userId = user.id ∧
          (handle env s authHeader req uuid).2 = s ++ [a]) := by
  constructor
  · intro hno
    unfold handle
    cases ha : authenticate env authHeader with
    | error res => rfl
    | ok user => exact absurd ha (hno user)
  · intro a hcreated
    rcases authenticate_cases env authHeader with
      ⟨-, hres⟩ | ⟨_, -, -, -, hres⟩ | ⟨_, _, -, -, -, -, hres⟩ |
      ⟨_, _, user, -, -, -, hmem, -, -, hres⟩
    · simp [handle, hres, tokenMissing] at hcreated
    · simp [handle, hres] at hcreated
    · simp [handle, hres, tokenInvalid] at hcreated
    · refine ⟨user, hmem, hres, ?_⟩
      cases req with
      | getRooms => simp [handle, hres, getRooms] at hcreated
      | getAppointments => simp [handle, hres, getAppointments] at hcreated
      | deleteAppointment id =>
        simp only [handle, hres] at hcreated
        rcases deleteAppointment_cases s user id with h | ⟨i, b, -, -, -, -, h⟩ | ⟨i, b, -, -, -, -, h⟩
        · rw [h.2] at hcreated; simp [notFound] at hcreated
        · rw [h] at hcreated; simp [forbidden] at hcreated
        · rw [h] at hcreated; simp at hcreated
      | postAppointments body =>
        simp only [handle, hres] at hcreated ⊢
        rcases postAppointments_cases env.rooms s user body uuid with
          hc | hc | hc | hc | ⟨st, en, -, -, -, -, -, hc⟩
        · rw [hc.2] at hcreated; simp [roomNotFound] at hcreated
        · rw [hc.2.2] at hcreated; simp [invalidRange] at hcreated
        · rw [hc.2.2.2] at hcreated; simp [conflictResponse] at hcreated
        · rw [hc.2.2] at hcreated; simp at hcreated
        · rw [hc] at hcreated ⊢
          simp only [Response.created.injEq] at hcreated
          subst hcreated
          exact ⟨rfl, rfl⟩

/-- Witness of C16: a create request with the header `Bearer zz:0`, and the
create of the second booking of the example by the second user. -/
theorem gate_blocks_mutation_witness :
    (handle exampleEnv [exampleAppt1] (some "Bearer zz:0")
        (.postAppointments ⟨"r1", some 700, some 760⟩) "a9").2 = [exampleAppt1] ∧
      ∃ user ∈ exampleEnv.users, authenticate exampleEnv (some "Bearer u2:0") = .ok user ∧
        exampleAppt2.userId = user.id ∧
        (handle exampleEnv [exampleAppt1] (some "Bearer u2:0")
          (.postAppointments ⟨"r1", some 600, some 660⟩) "a2").2 =
          [exampleAppt1] ++ [exampleAppt2] :=
  ⟨(gate_blocks_mutation exampleEnv [exampleAppt1] (some "Bearer zz:0")
      (.postAppointments ⟨"r1", some 700, some 760⟩) "a9").1
      (fun user h => absurd ((show authenticate exampleEnv (some "Bearer zz:0") =
        .error tokenInvalid from rfl).symm.trans h) (by simp)),
    (gate_blocks_mutation exampleEnv [exampleAppt1] (some "Bearer u2:0")
      (.postAppointments ⟨"r1", some 600, some 660⟩) "a2").2 exampleAppt2 (by decide)⟩

/-- C17: login answers with a token exactly when some registered user has that
username and that password, and answers 401 otherwise.  The token encodes the
id of the first such user `u` of the list: it is the encoding of the string made
of `u.id`, a colon and the clock value in decimal, so that any decoder that
inverts the encoder gives this string back, and the part of it before the first
colon is `u.id` when the id holds no colon. -/
theorem login_iff_credentials (users : List User) (base64Encode : String → String) (now : Nat)
    (username password : String) :
    ((∃ token, login users base64Encode now username password = .token token) ↔
        ∃ u ∈ users, u.username = username ∧ u.password = password) ∧
      ((¬ ∃ u ∈ users, u.username = username ∧ u.password = password) →
        login users base64Encode now username password = invalidCredentials ∧
          invalidCredentials.status = 401) ∧
      (∀ (l₁ l₂ : List User) (u : User), users = l₁ ++ u :: l₂ →
        (∀ v ∈ l₁, ¬ (v.username = username ∧ v.password = password)) →
        u.username = username ∧ u.password = password →
        login users base64Encode now username password =
            .token (base64Encode (u.id ++ ":" ++ toString now)) ∧
          ∀ base64Decode : String → String, (∀ s, base64Decode (base64Encode s) = s) →
            base64Decode (base64Encode (u.id ++ ":" ++ toString now)) =
                u.id ++ ":" ++ toString now ∧
              (':' ∉ u.id.data →
                String.mk ((split ':'
                  (base64Decode (base64Encode (u.id ++ ":" ++ toString now))).data).headD [])
                  = u.id)) := by
  refine ⟨⟨?_, ?_⟩, fun hno =>
    ⟨login_no_match users base64Encode now username password hno, rfl⟩, ?_⟩
  · rintro ⟨token, htoken⟩
    by_contra hno
    rw [login_no_match users base64Encode now username password hno] at htoken
    simp [invalidCredentials] at htoken
  · rintro ⟨u, hu, hcred⟩
    obtain ⟨l₁, v, l₂, hsplit, hbefore, hv⟩ :=
      exists_first (fun w : User => w.username = username ∧ w.password = password)
        users u hu hcred
    exact ⟨base64Encode (v.id ++ ":" ++ toString now),
      login_first_match users base64Encode now username password l₁ l₂ v hsplit hbefore hv⟩
  · intro l₁ l₂ u hsplit hbefore hu
    refine ⟨login_first_match users base64Encode now username password l₁ l₂ u hsplit
      hbefore hu, ?_⟩
    intro base64Decode hcodec
    refine ⟨hcodec _, ?_⟩
    intro hcolon
    rw [hcodec]
    exact split_colon_head u.id (toString now) hcolon

/-- Witness of C17: the second user of the example logs in at clock value 0, with
the example codec, and gets the token `aua2a:a0`, the encoding of `u2:0`; a
wrong password is refused. -/
theorem login_iff_credentials_witness :
    login exampleEnv.users exampleEncode 0 "julio.lima" "123456" = .token "aua2a:a0" ∧
      exampleDecode "aua2a:a0" = "u2:0" ∧
      login exampleEnv.users exampleEncode 0 "julio.lima" "12345" = invalidCredentials :=
  ⟨((login_iff_credentials exampleEnv.users exampleEncode 0 "julio.lima" "123456").2.2
      [exampleUser1] [] exampleUser2 rfl (by decide) (by decide)).1,
    by decide,
    ((login_iff_credentials exampleEnv.users exampleEncode 0 "julio.lima" "12345").2.1
      (by decide)).1⟩

/-- C19, evaluated at a failing input: a create on the room of the example with
an invalid start date is not answered with InvalidRange; it passes the range
check and the conflict scan and ends in the exception thrown by
`toISOString` (status 500).  The store is left as it was. -/
theorem invalid_date_create_uncaught :
    postAppointments [exampleRoom] [exampleAppt1] exampleUser1 ⟨"r1", none, some 700⟩ "a9" =
        (.uncaught, [exampleAppt1]) ∧
      (postAppointments [exampleRoom] [exampleAppt1] exampleUser1
        ⟨"r1", none, some 700⟩ "a9").1 ≠ invalidRange ∧
      (postAppointments [exampleRoom] [exampleAppt1] exampleUser1
        ⟨"r1", none, some 700⟩ "a9").1.status = 500 := by
  decide

/-- C20: cancelling frees the slot.  In a store reachable with fresh
identifiers, after the cancel of a stored appointment `a` by its owner (which
succeeds), a create on `a.roomId` for exactly the window of `a`, by any user,
succeeds and stores the new appointment. -/
theorem cancel_frees_slot (env : Env) (s : List Appointment) (a : Appointment)
    (owner u : User) (uuid : String) (hr : ReachableFresh env s) (ha : a ∈ s)
    (ho : owner.id = a.userId) :
    (deleteAppointment s owner a.id).1 = .noContent ∧
      postAppointments env.rooms (deleteAppointment s owner a.id).2 u
          ⟨a.roomId, some a.startTime, some a.endTime⟩ uuid =
        (.created ⟨uuid, a.roomId, u.id, a.startTime, a.endTime⟩,
          (deleteAppointment s owner a.id).2 ++
            [⟨uuid, a.roomId, u.id, a.startTime, a.endTime⟩]) := by
  have hd := idsDistinct_of_reachableFresh env s hr
  have hreach := reachable_of_reachableFresh env s hr
  obtain ⟨i, hi, hdel⟩ := deleteAppointment_owner_eraseIdx s a owner hd ha ho
  rw [hdel]
  refine ⟨rfl, ?_⟩
  exact postAppointments_created env.rooms (s.eraseIdx i) u a.roomId a.startTime a.endTime uuid
    (rooms_known_of_reachable env s hreach a ha)
    (valid_range_of_reachable env s hreach a ha)
    (window_free_after_eraseIdx s (noConflict_of_reachable env s hreach) i a hi)

/-- Witness of C20: in the reachable store of the example, the first user
cancels the first booking and the second user books the same window. -/
theorem cancel_frees_slot_witness :
    ReachableFresh exampleEnv [exampleAppt1, exampleAppt2] ∧
      exampleAppt1 ∈ [exampleAppt1, exampleAppt2] ∧ exampleUser1.id = exampleAppt1.userId ∧
      (postAppointments exampleEnv.rooms
          (deleteAppointment [exampleAppt1, exampleAppt2] exampleUser1 exampleAppt1.id).2
          exampleUser2 ⟨exampleAppt1.roomId, some exampleAppt1.startTime,
            some exampleAppt1.endTime⟩ "a3").1 =
        .created ⟨"a3", exampleAppt1.roomId, exampleUser2.id, exampleAppt1.startTime,
          exampleAppt1.endTime⟩ :=
  ⟨reachableFresh_example, by simp, rfl,
    by
      rw [(cancel_frees_slot exampleEnv [exampleAppt1, exampleAppt2] exampleAppt1 exampleUser1
        exampleUser2 "a3" reachableFresh_example (by simp) rfl).2]⟩

end SprintAgil
